import Mathlib

/-!
# Sales bonus report: a verification development for `src/main.js`

The three functions of `src/main.js` (`calculateSimpleRevenue`,
`calculateBonusByProfit`, `analyzeSalesData`) are embedded as Lean functions.

Modelling conventions.
* A JavaScript number is an exact rational (`ℚ`); `0.15`, `0.10`, `0.05` are
  `15/100`, `10/100`, `5/100`.  IEEE-754 effects (inexact sums, infinities) are
  outside the model.  A run in which the code goes on computing with `NaN` ends
  in the outcome `AnalysisError.notANumber`.
* A plain JavaScript object used as a dictionary is the list of its own
  properties in insertion order (`JSObject`).  A property read `o[k]`
  (`JSObject.read`) finds an own property, or else a member inherited from
  `Object.prototype` when `k` is one of its twelve names, or else `undefined`.
  `Object.prototype` is taken as it stands when the call starts.
* A reference to a `SellerStat` object held in `sellerIndex` is the position of
  that object in the `sellerStats` array.
* `Array.prototype.sort` is a stable sort; for a consistent comparator its
  result is the unique stable ordering, computed here by insertion sort.
* A thrown exception is an `Except` error.
-/

namespace SalesBonus

/-! ## JavaScript objects as ordered dictionaries -/

/-- Own properties of a plain object, in insertion order. -/
abbrev JSObject (β : Type) := List (String × β)

namespace JSObject

/-- Own property of `o` under the key `k`, if there is one. -/
def get? {β : Type} : JSObject β → String → Option β
  | [], _ => none
  | (k', v) :: rest, k => if k' = k then some v else get? rest k

/-- Property write `o[k] = v`: an existing key keeps its position, a new key is
appended. -/
def set {β : Type} : JSObject β → String → β → JSObject β
  | [], k, v => [(k, v)]
  | (k', v') :: rest, k, v =>
    if k' = k then (k', v) :: rest else (k', v') :: set rest k v

/-- Names of the members that a plain object inherits from `Object.prototype`. -/
def objectPrototypeKeys : List String :=
  ["constructor", "__defineGetter__", "__defineSetter__", "hasOwnProperty",
   "__lookupGetter__", "__lookupSetter__", "isPrototypeOf", "propertyIsEnumerable",
   "toString", "valueOf", "__proto__", "toLocaleString"]

/-- Result of a property read on a plain object. -/
inductive Lookup (β : Type) where
  | own (value : β)
  | inherited
  | undefined
  deriving DecidableEq, Repr

/-- Property read `o[k]`: an own property shadows the inherited member of the
same name. -/
def read {β : Type} (o : JSObject β) (k : String) : Lookup β :=
  match get? o k with
  | some v => .own v
  | none => if k ∈ objectPrototypeKeys then .inherited else .undefined

/-- Decimal value of a list of digit characters, most significant first. -/
def digitsValue (cs : List Char) : Nat :=
  cs.foldl (fun acc c => 10 * acc + (c.toNat - 48)) 0

/-- Array-index test on a property key: a canonical decimal numeral (no sign, no
leading zero except `"0"` itself) below `2^32 - 1`. -/
def arrayIndex? (k : String) : Option Nat :=
  match k.data with
  | [] => none
  | c :: cs =>
    if (c :: cs).all (fun d => decide (48 ≤ d.toNat ∧ d.toNat ≤ 57))
        ∧ (c = '0' → cs = [])
        ∧ digitsValue (c :: cs) < 2 ^ 32 - 1 then
      some (digitsValue (c :: cs))
    else none

/-- Own property keys order used by `Object.entries`: array-index keys first, in
ascending numeric order, then the other string keys in insertion order. -/
def entries {β : Type} (o : JSObject β) : List (String × β) :=
  let idx := o.filterMap (fun kv => (arrayIndex? kv.1).map (fun n => (n, kv)))
  let str := o.filter (fun kv => (arrayIndex? kv.1).isNone)
  (idx.insertionSort (fun a b => a.1 ≤ b.1)).map Prod.snd ++ str

end JSObject

/-! ## Data model -/

/-- Input seller card. -/
structure Seller where
  id : String
  first_name : String
  last_name : String
  deriving DecidableEq, Repr

/-- Input product card. -/
structure Product where
  sku : String
  purchase_price : ℚ
  deriving DecidableEq, Repr

/-- One line of a purchase record. -/
structure LineItem where
  sku : String
  quantity : ℚ
  sale_price : ℚ
  discount : ℚ
  deriving DecidableEq, Repr

/-- One purchase record (receipt). -/
structure PurchaseRecord where
  seller_id : String
  total_amount : ℚ
  items : List LineItem
  deriving DecidableEq, Repr

/-- The `data` argument once it is known to be truthy; a field is `none` when
`Array.isArray` rejects it. -/
structure Data where
  sellers : Option (List Seller)
  products : Option (List Product)
  purchase_records : Option (List PurchaseRecord)
  deriving DecidableEq, Repr

/-- A value held by `products_sold`: a number, or the string that `+=` builds
once the first read of the key has hit an inherited member, namely the source
text of that member followed by the quantities appended so far. -/
inductive SoldValue where
  | number (q : ℚ)
  | text (appended : List ℚ)
  deriving DecidableEq, Repr

/-- Numerals denote numbers. -/
instance {n : ℕ} : OfNat SoldValue n := ⟨SoldValue.number (OfNat.ofNat n)⟩

/-- The JavaScript difference `x - y` of two values of `products_sold`; `none`
stands for `NaN`, the difference as soon as one side is a string of the above
kind. -/
def SoldValue.sub : SoldValue → SoldValue → Option ℚ
  | .number x, .number y => some (x - y)
  | _, _ => none

/-- Working aggregate created by `data.sellers.map(...)`, lines 59-66. -/
structure SellerStat where
  id : String
  name : String
  revenue : ℚ
  profit : ℚ
  sales_count : ℕ
  products_sold : JSObject SoldValue
  deriving DecidableEq, Repr

/-- Entry of `top_products`. -/
structure TopProduct where
  sku : String
  quantity : SoldValue
  deriving DecidableEq, Repr

/-- A `SellerStat` after the annotation pass of lines 107-113. -/
structure AnnotatedStat where
  stat : SellerStat
  bonus : ℚ
  top_products : List TopProduct
  deriving DecidableEq, Repr

/-- Element of the returned array, lines 115-123. -/
structure SellerReport where
  seller_id : String
  name : String
  revenue : ℚ
  profit : ℚ
  sales_count : ℕ
  top_products : List TopProduct
  bonus : ℚ
  deriving DecidableEq, Repr

/-- Revenue strategy: a function of the line item and of an optional product
card (`none` when the caller passes no second argument). -/
abbrev RevenueFn := LineItem → Option Product → ℚ

/-- Bonus strategy: a function of index, total and seller aggregate. -/
abbrev BonusFn := ℤ → ℤ → SellerStat → ℚ

/-- The `options` argument: not of type object, `null`, or an object whose two
recognised members are `none` when absent or not callable. -/
inductive Options where
  | nonObject : Options
  | null : Options
  | object (calculateRevenue : Option RevenueFn) (calculateBonus : Option BonusFn) : Options

/-- Ways in which a run of `analyzeSalesData` ends without a list of reports in
exact numbers.  The first four are thrown: the three `throw new Error(...)` of
lines 46, 50, 56, and the `TypeError` of a property access on `undefined`
(lines 86, 93, 98).  The last one, `notANumber`, is not thrown: it marks a run in
which the code goes on computing with `NaN` (a cost read from an inherited
member on line 93, or `NaN` written into `Object.prototype` on line 86), which
the exact numbers used here do not include. -/
inductive AnalysisError where
  | invalidInputData
  | invalidOptions
  | missingStrategyFunctions
  | unresolvedReference
  | notANumber
  deriving DecidableEq, Repr

/-! ## The two default strategies -/

/-- Lines 7-10. -/
def calculateSimpleRevenue (purchase : LineItem) (_product : Option Product) : ℚ :=
  let discount := 1 - (purchase.discount / 100)
  purchase.sale_price * purchase.quantity * discount

/-- Lines 19-29. -/
def calculateBonusByProfit (index total : ℤ) (seller : SellerStat) : ℚ :=
  if index = 0 then
    seller.profit * (15 / 100)
  else if index = 1 ∨ index = 2 then
    seller.profit * (10 / 100)
  else if index = total - 1 then
    0
  else
    seller.profit * (5 / 100)

/-! ## Number formatting -/

/-- The value of `Number(x.toFixed(2))`: the sign is split off, and the magnitude goes to the
integer `n` with `n / 100` nearest to it, the larger `n` on a tie. -/
def round2 (x : ℚ) : ℚ :=
  if x < 0 then -((⌊-x * 100 + 1 / 2⌋ : ℤ) : ℚ) / 100
  else ((⌊x * 100 + 1 / 2⌋ : ℤ) : ℚ) / 100

/-! ## analyzeSalesData -/

/-- Lines 38-47: the three collections when `data` passes the guard. -/
def validateData (data : Option Data) :
    Option (List Seller × List Product × List PurchaseRecord) :=
  match data with
  | none => none
  | some d =>
    match d.sellers, d.products, d.purchase_records with
    | some sellers, some products, some records =>
      if sellers.length = 0 ∨ products.length = 0 ∨ records.length = 0 then none
      else some (sellers, products, records)
    | _, _, _ => none

/-- Lines 59-66. -/
def initStats (sellers : List Seller) : List SellerStat :=
  sellers.map (fun seller =>
    { id := seller.id
      name := seller.first_name ++ " " ++ seller.last_name
      revenue := 0
      profit := 0
      sales_count := 0
      products_sold := [] })

/-- Lines 68-73: a later seller with the same id overwrites the entry. -/
def buildSellerIndex (sellerStats : List SellerStat) : JSObject ℕ :=
  sellerStats.enum.foldl (fun result item => JSObject.set result item.2.id item.1) []

/-- Lines 75-80. -/
def buildProductIndex (products : List Product) : JSObject Product :=
  products.foldl (fun result item => JSObject.set result item.sku item) []

/-- Lines 98-101, the update of `products_sold` for one line item.  The guard of
line 98 is passed by `undefined` and by the number 0; an inherited member and a
non-empty string are truthy.  On line 101 an inherited member or a string makes
`+=` a string concatenation; the assignment creates an own property, except
under the key `__proto__`, whose inherited setter ignores a string. -/
def recordSale (products_sold : JSObject SoldValue) (item : LineItem) :
    JSObject SoldValue :=
  let sold : JSObject SoldValue :=
    match JSObject.read products_sold item.sku with
    | .undefined => JSObject.set products_sold item.sku (.number 0)
    | .inherited => products_sold
    | .own (.number q) =>
      if q = 0 then JSObject.set products_sold item.sku (.number 0) else products_sold
    | .own (.text _) => products_sold
  match JSObject.read sold item.sku with
  | .own (.number q) => JSObject.set sold item.sku (.number (q + item.quantity))
  | .own (.text appended) => JSObject.set sold item.sku (.text (appended ++ [item.quantity]))
  | .inherited =>
    if item.sku = "__proto__" then sold
    else JSObject.set sold item.sku (.text [item.quantity])
  | .undefined => sold

/-- Lines 91-101, the body of `record.items.forEach`.  An `undefined` product
makes line 93 throw; an inherited member has no `purchase_price`, so that the
cost is `NaN`. -/
def processItem (calculateRevenue : RevenueFn) (productIndex : JSObject Product)
    (seller : SellerStat) (item : LineItem) : Except AnalysisError SellerStat :=
  match JSObject.read productIndex item.sku with
  | .undefined => .error .unresolvedReference
  | .inherited => .error .notANumber
  | .own product =>
    let cost := product.purchase_price * item.quantity
    let revenue := calculateRevenue item none
    let profit := seller.profit + (revenue - cost)
    .ok { seller with profit := profit, products_sold := recordSale seller.products_sold item }

/-- Lines 85-102, the body of `data.purchase_records.forEach`.  The index holds
positions of `sellerStats`, so the read `sellerStats[i]?` always hits.  An
`undefined` seller makes line 86 throw.  An inherited member takes the writes of
lines 86 and 88 (`NaN`) and has no `products_sold`, so that line 98 throws for
the first line item, if line 93 has not thrown before; without line items the
record is passed over, and under the key `__proto__` the `NaN` has then been
written into `Object.prototype` itself. -/
def processRecord (calculateRevenue : RevenueFn) (sellerIndex : JSObject ℕ)
    (productIndex : JSObject Product) (sellerStats : List SellerStat)
    (record : PurchaseRecord) : Except AnalysisError (List SellerStat) :=
  match JSObject.read sellerIndex record.seller_id with
  | .undefined => .error .unresolvedReference
  | .inherited =>
    if record.items = [] then
      if record.seller_id = "__proto__" then .error .notANumber else .ok sellerStats
    else .error .unresolvedReference
  | .own i =>
    match sellerStats[i]? with
    | none => .error .unresolvedReference
    | some seller =>
      let seller := { seller with sales_count := seller.sales_count + 1 }
      let seller := { seller with revenue := seller.revenue + record.total_amount }
      match record.items.foldlM (processItem calculateRevenue productIndex) seller with
      | .error e => .error e
      | .ok seller => .ok (sellerStats.set i seller)

/-- Lines 59-103: the aggregates after the pass over all purchase records, in the
order of `data.sellers`. -/
def aggregate (calculateRevenue : RevenueFn) (sellers : List Seller)
    (products : List Product) (records : List PurchaseRecord) :
    Except AnalysisError (List SellerStat) :=
  let sellerStats := initStats sellers
  let sellerIndex := buildSellerIndex sellerStats
  let productIndex := buildProductIndex products
  records.foldlM (processRecord calculateRevenue sellerIndex productIndex) sellerStats

/-- Line 105: `sellerStats.sort((a, b) => b.profit - a.profit)`; `a` stays before
`b` unless the comparator is positive. -/
def sortByProfit (sellerStats : List SellerStat) : List SellerStat :=
  sellerStats.insertionSort (fun a b => b.profit - a.profit ≤ 0)

/-- Line 111: with the comparator `(a, b) => b.quantity - a.quantity` the entry
`a` stays before `b` unless the comparator is positive; `NaN` counts as zero. -/
def staysBefore (a b : TopProduct) : Prop :=
  match SoldValue.sub b.quantity a.quantity with
  | some d => d ≤ 0
  | none => True

instance (a b : TopProduct) : Decidable (staysBefore a b) := by
  unfold staysBefore
  cases SoldValue.sub b.quantity a.quantity <;> infer_instance

/-- Lines 109-112.  When a quantity is a string the comparator is inconsistent
and the order chosen by the engine's sort is implementation-defined; the order
computed here is then the one of an insertion sort. -/
def topProducts (products_sold : JSObject SoldValue) : List TopProduct :=
  (((JSObject.entries products_sold).map
      (fun kv => ({ sku := kv.1, quantity := kv.2 } : TopProduct))).insertionSort
    staysBefore).take 10

/-- Lines 107-113. -/
def annotate (calculateBonus : BonusFn) (sellerStats : List SellerStat) :
    List AnnotatedStat :=
  sellerStats.mapIdx (fun index seller =>
    { stat := seller
      bonus := calculateBonus (index : ℤ) (sellerStats.length : ℤ) seller
      top_products := topProducts seller.products_sold })

/-- Lines 115-123, the projection of one seller. -/
def project (seller : AnnotatedStat) : SellerReport :=
  { seller_id := seller.stat.id
    name := seller.stat.name
    revenue := round2 seller.stat.revenue
    profit := round2 seller.stat.profit
    sales_count := seller.stat.sales_count
    top_products := seller.top_products
    bonus := round2 seller.bonus }

/-- Lines 37-124. -/
def analyzeSalesData (data : Option Data) (options : Options) :
    Except AnalysisError (List SellerReport) :=
  match validateData data with
  | none => .error .invalidInputData
  | some (sellers, products, records) =>
    match options with
    | .nonObject => .error .invalidOptions
    | .null => .error .invalidOptions
    | .object (some calculateRevenue) (some calculateBonus) =>
      match aggregate calculateRevenue sellers products records with
      | .error e => .error e
      | .ok sellerStats =>
        .ok ((annotate calculateBonus (sortByProfit sellerStats)).map project)
    | .object _ _ => .error .missingStrategyFunctions

/-! ## Quantities used in the statements -/

/-- The `data` argument when all three members are arrays. -/
def mkData (sellers : List Seller) (products : List Product)
    (records : List PurchaseRecord) : Option Data :=
  some { sellers := some sellers, products := some products, purchase_records := some records }

/-- The `options` argument with both strategies supplied. -/
def mkOptions (calculateRevenue : RevenueFn) (calculateBonus : BonusFn) : Options :=
  .object (some calculateRevenue) (some calculateBonus)

/-- Every `seller_id` is the id of an input seller and every `sku` is the sku of
an input product. -/
def Resolves (sellers : List Seller) (products : List Product)
    (records : List PurchaseRecord) : Prop :=
  ∀ r ∈ records, (∃ s ∈ sellers, s.id = r.seller_id) ∧
    ∀ it ∈ r.items, ∃ p ∈ products, p.sku = it.sku

instance (sellers : List Seller) (products : List Product) (records : List PurchaseRecord) :
    Decidable (Resolves sellers products records) := by
  unfold Resolves; infer_instance

/-- Valid input: three non-empty collections whose references all resolve. -/
def ValidInput (sellers : List Seller) (products : List Product)
    (records : List PurchaseRecord) : Prop :=
  sellers ≠ [] ∧ products ≠ [] ∧ records ≠ [] ∧ Resolves sellers products records

instance (sellers : List Seller) (products : List Product) (records : List PurchaseRecord) :
    Decidable (ValidInput sellers products records) := by
  unfold ValidInput; infer_instance

/-- Position in `sellerStats` of the aggregate that `sellerIndex` holds for
`seller_id`. -/
def ownerOf (sellers : List Seller) (seller_id : String) : Option ℕ :=
  JSObject.get? (buildSellerIndex (initStats sellers)) seller_id

/-- Cost price read from a product index (zero when the sku is absent). -/
def indexedPrice (productIndex : JSObject Product) (sku : String) : ℚ :=
  match JSObject.get? productIndex sku with
  | some product => product.purchase_price
  | none => 0

/-- Contribution of one line item to the profit. -/
def itemProfitAt (calculateRevenue : RevenueFn) (productIndex : JSObject Product)
    (item : LineItem) : ℚ :=
  calculateRevenue item none - indexedPrice productIndex item.sku * item.quantity

/-- Contribution of one purchase record to the profit of its seller. -/
def recordProfitAt (calculateRevenue : RevenueFn) (productIndex : JSObject Product)
    (record : PurchaseRecord) : ℚ :=
  (record.items.map (itemProfitAt calculateRevenue productIndex)).sum

/-- The report produced for the aggregate `seller` standing at position `index`
of `total` sorted aggregates (lines 107-123 for one seller). -/
def reportAt (calculateBonus : BonusFn) (index total : ℕ) (seller : SellerStat) :
    SellerReport :=
  project
    { stat := seller
      bonus := calculateBonus (index : ℤ) (total : ℤ) seller
      top_products := topProducts seller.products_sold }

/-- Purchase price of the product card carrying `sku` (zero when there is none). -/
def purchasePriceOf (products : List Product) (sku : String) : ℚ :=
  match products.find? (fun p => p.sku = sku) with
  | some p => p.purchase_price
  | none => 0

/-! ## Example inputs -/

/-- The default strategies as `options`. -/
def defaultOptions : Options := mkOptions calculateSimpleRevenue calculateBonusByProfit

/-- One seller who sold two units of product A. -/
def soloSellers : List Seller := [⟨"s1", "Ann", "Lee"⟩]

/-- Product A, bought at 10. -/
def soloProducts : List Product := [⟨"A", 10⟩]

/-- One receipt: two units of A sold at 20 without discount. -/
def soloRecords : List PurchaseRecord := [⟨"s1", 40, [⟨"A", 2, 20, 0⟩]⟩]

/-- Two sellers in the order s1, s2. -/
def tieSellers : List Seller := [⟨"s1", "Ann", "Lee"⟩, ⟨"s2", "Bob", "Ray"⟩]

/-- Receipts giving s1 the profit 10.001 and s2 the profit 10.002. -/
def tieRecords : List PurchaseRecord :=
  [⟨"s1", 20, [⟨"A", 1, 20001 / 1000, 0⟩]⟩, ⟨"s2", 20, [⟨"A", 1, 20002 / 1000, 0⟩]⟩]

/-- Four sellers. -/
def fourSellers : List Seller :=
  [⟨"s1", "Ann", "Lee"⟩, ⟨"s2", "Bob", "Ray"⟩, ⟨"s3", "Cy", "Orr"⟩, ⟨"s4", "Dan", "Roe"⟩]

/-- One receipt per seller, with growing quantities of product A. -/
def fourRecords : List PurchaseRecord :=
  [⟨"s1", 20, [⟨"A", 1, 20, 0⟩]⟩, ⟨"s2", 40, [⟨"A", 2, 20, 0⟩]⟩,
   ⟨"s3", 60, [⟨"A", 3, 20, 0⟩]⟩, ⟨"s4", 80, [⟨"A", 4, 20, 0⟩]⟩]

/-- A receipt whose seller id no seller carries. -/
def strayRecords : List PurchaseRecord := [⟨"s9", 40, [⟨"A", 2, 20, 0⟩]⟩]

/-- A revenue strategy that reads the product card: twice the purchase price per
unit sold, and 0 when it is called without a card. -/
def markupRevenue : RevenueFn := fun item product =>
  match product with
  | some p => 2 * p.purchase_price * item.quantity
  | none => 0

/-- A seller aggregate with `products_sold` emptied. -/
def withoutSold (seller : SellerStat) : SellerStat :=
  { seller with products_sold := [] }

/-- A bonus strategy that reads `products_sold`: the quantity under its first key. -/
def firstSoldBonus : BonusFn := fun _ _ seller =>
  match seller.products_sold with
  | (_, .number q) :: _ => q
  | _ => 0

/-- Products A and B, both bought at 10. -/
def pairProducts : List Product := [⟨"A", 10⟩, ⟨"B", 10⟩]

/-- Two receipts of s1: one unit of A, then two units of B. -/
def pairRecords : List PurchaseRecord :=
  [⟨"s1", 20, [⟨"A", 1, 20, 0⟩]⟩, ⟨"s1", 40, [⟨"B", 2, 20, 0⟩]⟩]

/-- The receipts of `pairRecords` in the other order. -/
def pairRecordsSwapped : List PurchaseRecord :=
  [⟨"s1", 40, [⟨"B", 2, 20, 0⟩]⟩, ⟨"s1", 20, [⟨"A", 1, 20, 0⟩]⟩]

/-- Lines 98-101 on a dictionary of numbers, for a key that names no inherited
member. -/
def tally (sold : JSObject ℚ) (item : LineItem) : JSObject ℚ :=
  let sold :=
    match JSObject.get? sold item.sku with
    | none => JSObject.set sold item.sku 0
    | some q => if q = 0 then JSObject.set sold item.sku 0 else sold
  JSObject.set sold item.sku ((JSObject.get? sold item.sku).getD 0 + item.quantity)

/-- A dictionary of numbers as a value of `products_sold`. -/
def plainSold (sold : JSObject ℚ) : JSObject SoldValue :=
  sold.map (fun kv => (kv.1, SoldValue.number kv.2))

/-- A key with its number as an entry of `top_products`. -/
def plainEntry (kv : String × ℚ) : TopProduct :=
  { sku := kv.1, quantity := SoldValue.number kv.2 }

/-- Lines 109-112 on a dictionary of numbers. -/
def topEntries (sold : JSObject ℚ) : List (String × ℚ) :=
  ((JSObject.entries sold).insertionSort (fun a b => b.2 - a.2 ≤ 0)).take 10

/-- Keys in the order of their first appearance, after the keys already seen. -/
def firstSeen : List String → List String → List String
  | seen, [] => seen
  | seen, k :: ks => firstSeen (if k ∈ seen then seen else seen ++ [k]) ks

/-- The line items, in processing order, of the records that the seller index
assigns to position `i` of `sellerStats`. -/
def itemsOf (sellers : List Seller) (records : List PurchaseRecord) (i : ℕ) : List LineItem :=
  (records.filter (fun r => ownerOf sellers r.seller_id = some i)).flatMap (·.items)

/-- The line items, in processing order, of the records carrying `seller_id`. -/
def itemsOfSeller (records : List PurchaseRecord) (seller_id : String) : List LineItem :=
  (records.filter (fun r => r.seller_id = seller_id)).flatMap (·.items)

/-- Sum of the quantities of the line items carrying `sku`. -/
def soldQuantity (items : List LineItem) (sku : String) : ℚ :=
  ((items.filter (fun it => it.sku = sku)).map (·.quantity)).sum

/-- Products whose skus are the numerals 2 and 1. -/
def numeralProducts : List Product := [⟨"2", 10⟩, ⟨"1", 10⟩]

/-- One receipt of s1: one unit of sku 2, then one unit of sku 1. -/
def numeralRecords : List PurchaseRecord :=
  [⟨"s1", 40, [⟨"2", 1, 20, 0⟩, ⟨"1", 1, 20, 0⟩]⟩]

/-- Each seller id and sku of the records is resolved or names no member of
`Object.prototype`. -/
def PlainKeys (sellers : List Seller) (products : List Product)
    (records : List PurchaseRecord) : Prop :=
  ∀ r ∈ records,
    ((∃ s ∈ sellers, s.id = r.seller_id) ∨ r.seller_id ∉ JSObject.objectPrototypeKeys) ∧
    ∀ it ∈ r.items, (∃ p ∈ products, p.sku = it.sku) ∨ it.sku ∉ JSObject.objectPrototypeKeys

instance (sellers : List Seller) (products : List Product) (records : List PurchaseRecord) :
    Decidable (PlainKeys sellers products records) := by
  unfold PlainKeys; infer_instance

/-- A receipt without line items whose seller id is the name of an inherited
member. -/
def inheritedSellerRecords : List PurchaseRecord := [⟨"constructor", 40, []⟩]

/-- A receipt of s1 whose only sku is the name of an inherited member. -/
def inheritedSkuRecords : List PurchaseRecord := [⟨"s1", 40, [⟨"constructor", 2, 20, 0⟩]⟩]

/-- A product whose sku is the name of an inherited member. -/
def inheritedProducts : List Product := [⟨"toString", 10⟩]

/-- A receipt of s1: two units of the product `toString`. -/
def inheritedProductRecords : List PurchaseRecord :=
  [⟨"s1", 40, [⟨"toString", 2, 20, 0⟩]⟩]

/-- Every sku of the line items names no member of `Object.prototype`. -/
def PlainSkus (records : List PurchaseRecord) : Prop :=
  ∀ r ∈ records, ∀ it ∈ r.items, it.sku ∉ JSObject.objectPrototypeKeys

instance (records : List PurchaseRecord) : Decidable (PlainSkus records) := by
  unfold PlainSkus; infer_instance

/-- Products with the skus 2, 1, B and A. -/
def mixedProducts : List Product := [⟨"2", 5⟩, ⟨"1", 5⟩, ⟨"B", 5⟩, ⟨"A", 5⟩]

/-- One receipt of s1: one unit each of the skus 2, 1, B and A, in this order. -/
def mixedRecords : List PurchaseRecord :=
  [⟨"s1", 40, [⟨"2", 1, 10, 0⟩, ⟨"1", 1, 10, 0⟩, ⟨"B", 1, 10, 0⟩, ⟨"A", 1, 10, 0⟩]⟩]

/-- A bonus strategy that reads `products_sold` without regard to the order of
its keys: the number of units sold,
`Object.values(seller.products_sold).reduce((a, q) => typeof q === 'number' ? a + q : a, 0)`. -/
def soldTotalBonus : BonusFn := fun _ _ seller =>
  (seller.products_sold.map (fun kv =>
    match kv.2 with
    | .number q => q
    | .text _ => 0)).sum

/-- Two receipts with the same exact profit 10, one of s1 and one of s2. -/
def evenRecords : List PurchaseRecord :=
  [⟨"s1", 20, [⟨"A", 1, 20, 0⟩]⟩, ⟨"s2", 20, [⟨"A", 1, 20, 0⟩]⟩]

/-! ## Dictionary lemmas -/

theorem JSObject.get?_set {β : Type} (o : JSObject β) (k k' : String) (v : β) :
    JSObject.get? (JSObject.set o k v) k' = if k = k' then some v else JSObject.get? o k' := by
  induction o with
  | nil => simp [JSObject.set, JSObject.get?]
  | cons kv rest ih =>
    obtain ⟨k0, v0⟩ := kv
    by_cases h : k0 = k
    · subst h
      by_cases h' : k0 = k' <;> simp [JSObject.set, JSObject.get?, h']
    · by_cases h' : k0 = k'
      · subst h'
        have : ¬ k = k0 := fun e => h e.symm
        simp [JSObject.set, JSObject.get?, h, this]
      · simp [JSObject.set, JSObject.get?, h, h', ih]

/-- Reading a dictionary built by successive writes: a hit comes from one of
the written entries or from the initial object. -/
theorem get?_foldl_set_some {α β : Type} (key : α → String) (val : α → β) (l : List α) :
    ∀ (o : JSObject β) (k : String) (v : β),
      JSObject.get? (l.foldl (fun r x => JSObject.set r (key x) (val x)) o) k = some v →
      (∃ x ∈ l, key x = k ∧ val x = v) ∨ JSObject.get? o k = some v := by
  induction l with
  | nil => intro o k v h; exact Or.inr h
  | cons a l ih =>
    intro o k v h
    rw [List.foldl_cons] at h
    rcases ih _ k v h with ⟨x, hx, hk, hv⟩ | h'
    · exact Or.inl ⟨x, List.mem_cons_of_mem _ hx, hk, hv⟩
    · rw [JSObject.get?_set] at h'
      by_cases hak : key a = k
      · rw [if_pos hak] at h'
        exact Or.inl ⟨a, List.mem_cons_self _ _, hak, Option.some.inj h'⟩
      · rw [if_neg hak] at h'
        exact Or.inr h'

theorem get?_foldl_set_isSome {α β : Type} (key : α → String) (val : α → β) (l : List α) :
    ∀ (o : JSObject β) (k : String),
      ((∃ x ∈ l, key x = k) ∨ (JSObject.get? o k).isSome) →
      (JSObject.get? (l.foldl (fun r x => JSObject.set r (key x) (val x)) o) k).isSome := by
  induction l with
  | nil =>
    intro o k h
    rcases h with ⟨x, hx, _⟩ | h
    · cases hx
    · exact h
  | cons a l ih =>
    intro o k h
    rw [List.foldl_cons]
    apply ih
    rcases h with ⟨x, hx, hk⟩ | h
    · rcases List.mem_cons.mp hx with rfl | hx
      · right; rw [JSObject.get?_set, if_pos hk]; rfl
      · exact Or.inl ⟨x, hx, hk⟩
    · right
      rw [JSObject.get?_set]
      split
      · rfl
      · exact h

theorem SoldValue.ofNat_eq (n : ℕ) :
    (OfNat.ofNat n : SoldValue) = SoldValue.number (OfNat.ofNat n) := rfl

/-- A read that finds an own property. -/
theorem JSObject.read_of_get? {β : Type} (o : JSObject β) (k : String) (v : β)
    (h : JSObject.get? o k = some v) : JSObject.read o k = .own v := by
  simp only [JSObject.read, h]

/-- A read under a key that names no inherited member. -/
theorem JSObject.read_of_not_inherited {β : Type} (o : JSObject β) (k : String)
    (hk : k ∉ JSObject.objectPrototypeKeys) :
    JSObject.read o k =
      match JSObject.get? o k with
      | some v => .own v
      | none => .undefined := by
  unfold JSObject.read
  cases JSObject.get? o k with
  | none => simp only [if_neg hk]
  | some v => rfl

/-! ## The aggregation pass -/

/-- The fields of a seller aggregate that the item loop never touches. -/
theorem processItem_ok (rev : RevenueFn) (pidx : JSObject Product) (s : SellerStat)
    (it : LineItem) (h : (JSObject.get? pidx it.sku).isSome) :
    ∃ s', processItem rev pidx s it = .ok s' ∧ s'.id = s.id ∧ s'.name = s.name ∧
      s'.revenue = s.revenue ∧ s'.sales_count = s.sales_count ∧
      s'.profit = s.profit + itemProfitAt rev pidx it := by
  obtain ⟨p, hp⟩ := Option.isSome_iff_exists.mp h
  simp only [processItem, JSObject.read_of_get? pidx it.sku p hp]
  exact ⟨_, rfl, rfl, rfl, rfl, rfl, by simp [itemProfitAt, indexedPrice, hp]⟩

theorem foldlM_processItem_ok (rev : RevenueFn) (pidx : JSObject Product) (items : List LineItem) :
    ∀ (s : SellerStat), (∀ it ∈ items, (JSObject.get? pidx it.sku).isSome) →
    ∃ s', items.foldlM (processItem rev pidx) s = .ok s' ∧ s'.id = s.id ∧ s'.name = s.name ∧
      s'.revenue = s.revenue ∧ s'.sales_count = s.sales_count ∧
      s'.profit = s.profit + (items.map (itemProfitAt rev pidx)).sum := by
  induction items with
  | nil => intro s _; exact ⟨s, rfl, rfl, rfl, rfl, rfl, by simp⟩
  | cons it items ih =>
    intro s h
    obtain ⟨s1, h1, hid, hname, hrev, hcnt, hprof⟩ :=
      processItem_ok rev pidx s it (h it (List.mem_cons_self _ _))
    obtain ⟨s2, h2, hid2, hname2, hrev2, hcnt2, hprof2⟩ :=
      ih s1 (fun x hx => h x (List.mem_cons_of_mem _ hx))
    refine ⟨s2, ?_, by rw [hid2, hid], by rw [hname2, hname], by rw [hrev2, hrev],
      by rw [hcnt2, hcnt], ?_⟩
    · rw [List.foldlM_cons, h1]
      exact h2
    · rw [hprof2, hprof, List.map_cons, List.sum_cons]
      ring

theorem processRecord_ok (rev : RevenueFn) (sidx : JSObject ℕ) (pidx : JSObject Product)
    (st : List SellerStat) (r : PurchaseRecord) (i0 : ℕ) (s0 : SellerStat)
    (hi : JSObject.get? sidx r.seller_id = some i0) (hs : st[i0]? = some s0)
    (hp : ∀ it ∈ r.items, (JSObject.get? pidx it.sku).isSome) :
    ∃ s1, processRecord rev sidx pidx st r = .ok (st.set i0 s1) ∧ s1.id = s0.id ∧
      s1.name = s0.name ∧ s1.revenue = s0.revenue + r.total_amount ∧
      s1.sales_count = s0.sales_count + 1 ∧
      s1.profit = s0.profit + recordProfitAt rev pidx r := by
  obtain ⟨s1, h1, hid, hname, hrev, hcnt, hprof⟩ :=
    foldlM_processItem_ok rev pidx r.items
      { s0 with sales_count := s0.sales_count + 1, revenue := s0.revenue + r.total_amount } hp
  refine ⟨s1, ?_, hid, hname, hrev, hcnt, hprof⟩
  simp only [processRecord, JSObject.read_of_get? sidx r.seller_id i0 hi, hs]
  rw [h1]

theorem sum_map_set {α : Type} (f : α → ℕ) (l : List α) :
    ∀ (i : ℕ) (a b : α), l[i]? = some a →
      ((l.set i b).map f).sum + f a = (l.map f).sum + f b := by
  induction l with
  | nil => intro i a b h; simp at h
  | cons x l ih =>
    intro i a b h
    cases i with
    | zero =>
      simp only [List.getElem?_cons_zero, Option.some.injEq] at h
      subst h
      simp only [List.set_cons_zero, List.map_cons, List.sum_cons]
      omega
    | succ i =>
      simp only [List.getElem?_cons_succ] at h
      have := ih i a b h
      simp only [List.set_cons_succ, List.map_cons, List.sum_cons]
      omega

theorem foldlM_processRecord_ok (rev : RevenueFn) (sidx : JSObject ℕ) (pidx : JSObject Product)
    (records : List PurchaseRecord) :
    ∀ (st : List SellerStat),
      (∀ r ∈ records, (∃ i, JSObject.get? sidx r.seller_id = some i ∧ i < st.length) ∧
        ∀ it ∈ r.items, (JSObject.get? pidx it.sku).isSome) →
      ∃ st', records.foldlM (processRecord rev sidx pidx) st = .ok st' ∧
        st'.length = st.length ∧
        (st'.map (·.sales_count)).sum = (st.map (·.sales_count)).sum + records.length ∧
        ∀ i s, st[i]? = some s → ∃ s', st'[i]? = some s' ∧ s'.id = s.id ∧ s'.name = s.name ∧
          s'.revenue = s.revenue +
            ((records.filter (fun r => JSObject.get? sidx r.seller_id = some i)).map
              (·.total_amount)).sum ∧
          s'.sales_count = s.sales_count +
            (records.filter (fun r => JSObject.get? sidx r.seller_id = some i)).length ∧
          s'.profit = s.profit +
            ((records.filter (fun r => JSObject.get? sidx r.seller_id = some i)).map
              (recordProfitAt rev pidx)).sum := by
  induction records with
  | nil =>
    intro st _
    exact ⟨st, rfl, rfl, by simp, fun i s h => ⟨s, h, rfl, rfl, by simp, by simp, by simp⟩⟩
  | cons r records ih =>
    intro st h
    obtain ⟨⟨i0, hi0, hlt⟩, hp⟩ := h r (List.mem_cons_self _ _)
    obtain ⟨s0, hs0⟩ : ∃ s0, st[i0]? = some s0 := ⟨st[i0], List.getElem?_eq_getElem hlt⟩
    obtain ⟨s1, h1, hid, hname, hrev, hcnt, hprof⟩ :=
      processRecord_ok rev sidx pidx st r i0 s0 hi0 hs0 hp
    have hlen : (st.set i0 s1).length = st.length := List.length_set _ _ _
    obtain ⟨st', h2, hlen2, hsum2, hall⟩ := ih (st.set i0 s1) (by
      intro r' hr'
      obtain ⟨⟨i, hi, hlt'⟩, hp'⟩ := h r' (List.mem_cons_of_mem _ hr')
      exact ⟨⟨i, hi, by rw [hlen]; exact hlt'⟩, hp'⟩)
    refine ⟨st', ?_, by rw [hlen2, hlen], ?_, ?_⟩
    · rw [List.foldlM_cons, h1]
      exact h2
    · have := sum_map_set (·.sales_count) st i0 s0 s1 hs0
      simp only [List.length_cons] at *
      omega
    · intro i s hs
      by_cases hii : i0 = i
      · subst hii
        have hs' : s = s0 := by rw [hs0] at hs; exact (Option.some.inj hs).symm
        subst hs'
        obtain ⟨s', hs', hid', hname', hrev', hcnt', hprof'⟩ := hall i0 s1 (by
          rw [List.getElem?_set_self hlt])
        refine ⟨s', hs', by rw [hid', hid], by rw [hname', hname], ?_, ?_, ?_⟩
        · rw [hrev', hrev, List.filter_cons_of_pos (by simpa using hi0), List.map_cons,
            List.sum_cons]
          ring
        · rw [hcnt', hcnt, List.filter_cons_of_pos (by simpa using hi0), List.length_cons]
          omega
        · rw [hprof', hprof, List.filter_cons_of_pos (by simpa using hi0), List.map_cons,
            List.sum_cons]
          ring
      · obtain ⟨s', hs', hid', hname', hrev', hcnt', hprof'⟩ := hall i s (by
          rw [List.getElem?_set_ne hii]; exact hs)
        have hneg : ¬ (JSObject.get? sidx r.seller_id = some i) := by
          rw [hi0]; intro e; exact hii (Option.some.inj e)
        refine ⟨s', hs', hid', hname', ?_, ?_, ?_⟩
        · rw [hrev', List.filter_cons_of_neg (by simpa using hneg)]
        · rw [hcnt', List.filter_cons_of_neg (by simpa using hneg)]
        · rw [hprof', List.filter_cons_of_neg (by simpa using hneg)]

/-! ## The two indices -/

theorem initStats_length (sellers : List Seller) : (initStats sellers).length = sellers.length := by
  simp [initStats]

theorem initStats_getElem? (sellers : List Seller) (i : ℕ) :
    (initStats sellers)[i]? = sellers[i]?.map (fun seller =>
      ({ id := seller.id, name := seller.first_name ++ " " ++ seller.last_name,
         revenue := 0, profit := 0, sales_count := 0, products_sold := [] } : SellerStat)) := by
  simp [initStats]

/-- A hit in the seller index is the position of an input seller with that id. -/
theorem ownerOf_some (sellers : List Seller) (k : String) (i : ℕ)
    (h : ownerOf sellers k = some i) : ∃ s, sellers[i]? = some s ∧ s.id = k := by
  unfold ownerOf buildSellerIndex at h
  rcases get?_foldl_set_some (fun x : ℕ × SellerStat => x.2.id) (fun x => x.1) _ [] k i h with
    ⟨x, hx, hk, hv⟩ | h'
  · have hx' := List.mem_enum_iff_getElem?.mp hx
    rw [hv, initStats_getElem?] at hx'
    obtain ⟨s, hs, hs'⟩ := Option.map_eq_some'.mp hx'
    refine ⟨s, hs, ?_⟩
    rw [← hk, ← hs']
  · simp [JSObject.get?] at h'

/-- Every id of an input seller is present in the seller index. -/
theorem ownerOf_isSome (sellers : List Seller) (k : String)
    (h : ∃ s ∈ sellers, s.id = k) : ∃ i, ownerOf sellers k = some i ∧ i < sellers.length := by
  obtain ⟨s, hs, hk⟩ := h
  obtain ⟨i, hi⟩ := List.getElem?_of_mem hs
  have hsome : (ownerOf sellers k).isSome := by
    unfold ownerOf buildSellerIndex
    apply get?_foldl_set_isSome (fun x : ℕ × SellerStat => x.2.id) (fun x => x.1)
    left
    refine ⟨(i, (⟨s.id, s.first_name ++ " " ++ s.last_name, 0, 0, 0, []⟩ : SellerStat)), ?_, hk⟩
    rw [List.mem_enum_iff_getElem?, initStats_getElem?, hi]
    rfl
  obtain ⟨j, hj⟩ := Option.isSome_iff_exists.mp hsome
  obtain ⟨s', hs', _⟩ := ownerOf_some sellers k j hj
  exact ⟨j, hj, (List.getElem?_eq_some_iff.mp hs').1⟩

/-- With pairwise distinct seller ids the index sends an id to the position of
the one seller carrying it. -/
theorem ownerOf_eq_iff (sellers : List Seller) (hnd : (sellers.map (·.id)).Nodup)
    (i : ℕ) (s : Seller) (hs : sellers[i]? = some s) (k : String) :
    ownerOf sellers k = some i ↔ k = s.id := by
  constructor
  · intro h
    obtain ⟨s', hs', hk⟩ := ownerOf_some sellers k i h
    rw [hs] at hs'
    rw [← hk, ← Option.some.inj hs']
  · intro hk
    obtain ⟨j, hj, hlt⟩ := ownerOf_isSome sellers k ⟨s, List.getElem?_mem hs, hk.symm⟩
    obtain ⟨s', hs', hk'⟩ := ownerOf_some sellers k j hj
    have hi : i < sellers.length := (List.getElem?_eq_some_iff.mp hs).1
    have e1 : (sellers.map (·.id))[i]? = some k := by simp [hs, hk]
    have e2 : (sellers.map (·.id))[j]? = some k := by simp [hs', hk']
    have hij : i = j := by
      have hi' : i < (sellers.map (·.id)).length := by simpa using hi
      have hj' : j < (sellers.map (·.id)).length := by simpa using hlt
      have := (@List.Nodup.getElem_inj_iff _ _ hnd i hi' j hj').mp (by
        rw [List.getElem?_eq_getElem hi'] at e1
        rw [List.getElem?_eq_getElem hj'] at e2
        rw [Option.some.inj e1, Option.some.inj e2])
      exact this
    rw [hij]; exact hj

/-- A hit in the product index is an input product with that sku. -/
theorem productIndex_some (products : List Product) (k : String) (p : Product)
    (h : JSObject.get? (buildProductIndex products) k = some p) : p ∈ products ∧ p.sku = k := by
  unfold buildProductIndex at h
  rcases get?_foldl_set_some (fun x : Product => x.sku) (fun x => x) _ [] k p h with
    ⟨x, hx, hk, hv⟩ | h'
  · subst hv; exact ⟨hx, hk⟩
  · simp [JSObject.get?] at h'

theorem productIndex_isSome (products : List Product) (k : String)
    (h : ∃ p ∈ products, p.sku = k) : (JSObject.get? (buildProductIndex products) k).isSome := by
  unfold buildProductIndex
  exact get?_foldl_set_isSome (fun x : Product => x.sku) (fun x => x) _ [] k (Or.inl h)

/-! ## The whole pipeline on valid input -/

/-- On valid input the aggregation pass succeeds, and each aggregate holds the
exact sums over the records its seller owns. -/
theorem aggregate_valid (rev : RevenueFn) (sellers : List Seller) (products : List Product)
    (records : List PurchaseRecord) (hres : Resolves sellers products records) :
    ∃ agg, aggregate rev sellers products records = .ok agg ∧
      agg.length = sellers.length ∧
      (agg.map (·.sales_count)).sum = records.length ∧
      ∀ i s, sellers[i]? = some s → ∃ a, agg[i]? = some a ∧ a.id = s.id ∧
        a.name = s.first_name ++ " " ++ s.last_name ∧
        a.revenue = ((records.filter (fun r => ownerOf sellers r.seller_id = some i)).map
          (·.total_amount)).sum ∧
        a.sales_count = (records.filter (fun r => ownerOf sellers r.seller_id = some i)).length ∧
        a.profit = ((records.filter (fun r => ownerOf sellers r.seller_id = some i)).map
          (recordProfitAt rev (buildProductIndex products))).sum := by
  obtain ⟨agg, hagg, hlen, hsum, hall⟩ :=
    foldlM_processRecord_ok rev (buildSellerIndex (initStats sellers)) (buildProductIndex products)
      records (initStats sellers) (by
        intro r hr
        obtain ⟨hs, hp⟩ := hres r hr
        obtain ⟨i, hi, hlt⟩ := ownerOf_isSome sellers r.seller_id hs
        refine ⟨⟨i, hi, by rw [initStats_length]; exact hlt⟩, ?_⟩
        intro it hit
        exact productIndex_isSome products it.sku (hp it hit))
  refine ⟨agg, hagg, by rw [hlen, initStats_length], ?_, ?_⟩
  · rw [hsum]
    have : ((initStats sellers).map (·.sales_count)).sum = 0 := by
      simp [initStats, Function.comp_def]
    omega
  · intro i s hs
    obtain ⟨a, ha, hid, hname, hrev, hcnt, hprof⟩ := hall i _ (by
      rw [initStats_getElem?, hs]; rfl)
    refine ⟨a, ha, hid, hname, ?_, ?_, ?_⟩
    · rw [hrev]; simp [ownerOf]
    · rw [hcnt]; simp [ownerOf]
    · rw [hprof]; simp [ownerOf]

/-- With three non-empty arrays and both strategies the guards of lines 38-57
pass and the result is the projection of the annotated, sorted aggregates. -/
theorem analyzeSalesData_eq (rev : RevenueFn) (bon : BonusFn) (sellers : List Seller)
    (products : List Product) (records : List PurchaseRecord)
    (hs : sellers ≠ []) (hp : products ≠ []) (hr : records ≠ []) :
    analyzeSalesData (mkData sellers products records) (mkOptions rev bon) =
      match aggregate rev sellers products records with
      | .error e => .error e
      | .ok sellerStats => .ok ((annotate bon (sortByProfit sellerStats)).map project) := by
  have h : ¬ (sellers.length = 0 ∨ products.length = 0 ∨ records.length = 0) := by
    simp [hs, hp, hr]
  simp only [analyzeSalesData, mkData, mkOptions, validateData, if_neg h]

/-- The report at a position is the projection of the sorted aggregate there. -/
theorem getElem?_reports (bon : BonusFn) (l : List SellerStat) (i : ℕ) :
    ((annotate bon l).map project)[i]? = l[i]?.map (reportAt bon i l.length) := by
  simp only [annotate, List.getElem?_map, List.getElem?_mapIdx, Option.map_map]
  rfl

theorem reports_length (bon : BonusFn) (l : List SellerStat) :
    ((annotate bon l).map project).length = l.length := by
  simp [annotate]

/-- The reports are the sorted aggregates mapped through a function that keeps
id and sales count. -/
theorem reports_map_id (bon : BonusFn) (l : List SellerStat) :
    ((annotate bon l).map project).map (·.seller_id) = l.map (·.id) := by
  apply List.ext_getElem?
  intro i
  rw [List.getElem?_map, getElem?_reports, List.getElem?_map]
  cases l[i]? <;> rfl

theorem reports_map_sales_count (bon : BonusFn) (l : List SellerStat) :
    ((annotate bon l).map project).map (·.sales_count) = l.map (·.sales_count) := by
  apply List.ext_getElem?
  intro i
  rw [List.getElem?_map, getElem?_reports, List.getElem?_map]
  cases l[i]? <;> rfl

/-! ## The sort -/

theorem sortByProfit_perm (l : List SellerStat) : (sortByProfit l).Perm l :=
  List.perm_insertionSort _ l

theorem sortByProfit_length (l : List SellerStat) : (sortByProfit l).length = l.length :=
  List.length_insertionSort _ l

theorem sortByProfit_sorted (l : List SellerStat) :
    (sortByProfit l).Pairwise (fun a b => b.profit ≤ a.profit) := by
  haveI : IsTotal SellerStat (fun a b => b.profit - a.profit ≤ 0) :=
    ⟨fun a b => by
      rcases le_total a.profit b.profit with h | h
      · right; linarith
      · left; linarith⟩
  haveI : IsTrans SellerStat (fun a b => b.profit - a.profit ≤ 0) :=
    ⟨fun a b c hab hbc => by
      have h1 : b.profit - a.profit ≤ 0 := hab
      have h2 : c.profit - b.profit ≤ 0 := hbc
      show c.profit - a.profit ≤ 0
      linarith⟩
  have h := List.sorted_insertionSort (fun a b : SellerStat => b.profit - a.profit ≤ 0) l
  exact List.Pairwise.imp
    (fun {a b : SellerStat} (hab : b.profit - a.profit ≤ 0) => (by linarith : b.profit ≤ a.profit)) h

/-- Stability: a sublist whose profits never increase keeps its order. -/
theorem sortByProfit_sublist (l c : List SellerStat)
    (hc : c.Pairwise (fun a b => b.profit ≤ a.profit)) (hsub : c.Sublist l) :
    c.Sublist (sortByProfit l) :=
  List.sublist_insertionSort
    (List.Pairwise.imp (fun {a b : SellerStat} (hab : b.profit ≤ a.profit) =>
      (by linarith : b.profit - a.profit ≤ 0)) hc) hsub

/-! ## Rounding -/

theorem round2_nonneg_of_nonneg (x : ℚ) (hx : 0 ≤ x) : 0 ≤ round2 x := by
  unfold round2
  rw [if_neg (not_lt.mpr hx)]
  have h : (0 : ℤ) ≤ ⌊x * 100 + 1 / 2⌋ := Int.floor_nonneg.mpr (by linarith)
  have h' : (0 : ℚ) ≤ (⌊x * 100 + 1 / 2⌋ : ℤ) := by exact_mod_cast h
  exact div_nonneg h' (by norm_num)

theorem round2_nonpos_of_neg (x : ℚ) (hx : x < 0) : round2 x ≤ 0 := by
  unfold round2
  rw [if_pos hx]
  have h : (0 : ℤ) ≤ ⌊-x * 100 + 1 / 2⌋ := Int.floor_nonneg.mpr (by linarith)
  have h' : (0 : ℚ) ≤ (⌊-x * 100 + 1 / 2⌋ : ℤ) := by exact_mod_cast h
  have : -((⌊-x * 100 + 1 / 2⌋ : ℤ) : ℚ) / 100 = -(((⌊-x * 100 + 1 / 2⌋ : ℤ) : ℚ) / 100) := by
    ring
  rw [this]
  have := div_nonneg h' (by norm_num : (0 : ℚ) ≤ 100)
  linarith

/-- Rounding to two decimals is monotone. -/
theorem round2_mono {x y : ℚ} (hxy : x ≤ y) : round2 x ≤ round2 y := by
  by_cases hx : x < 0
  · by_cases hy : y < 0
    · unfold round2
      rw [if_pos hx, if_pos hy]
      have h : ⌊-y * 100 + 1 / 2⌋ ≤ ⌊-x * 100 + 1 / 2⌋ := Int.floor_mono (by linarith)
      have h' : ((⌊-y * 100 + 1 / 2⌋ : ℤ) : ℚ) ≤ (⌊-x * 100 + 1 / 2⌋ : ℤ) := by exact_mod_cast h
      linarith
    · exact le_trans (round2_nonpos_of_neg x hx) (round2_nonneg_of_nonneg y (not_lt.mp hy))
  · have hy : ¬ y < 0 := by intro h; exact hx (lt_of_le_of_lt hxy h)
    unfold round2
    rw [if_neg hx, if_neg hy]
    have h : ⌊x * 100 + 1 / 2⌋ ≤ ⌊y * 100 + 1 / 2⌋ := Int.floor_mono (by linarith)
    have h' : ((⌊x * 100 + 1 / 2⌋ : ℤ) : ℚ) ≤ (⌊y * 100 + 1 / 2⌋ : ℤ) := by exact_mod_cast h
    linarith

/-- Value of `round2` on a non-negative number from a two-sided bound. -/
theorem round2_eq_of_bounds (x : ℚ) (n : ℤ) (h0 : 0 ≤ x) (h1 : (n : ℚ) ≤ x * 100 + 1 / 2)
    (h2 : x * 100 + 1 / 2 < n + 1) : round2 x = n / 100 := by
  unfold round2
  rw [if_neg (not_lt.mpr h0)]
  have : ⌊x * 100 + 1 / 2⌋ = n := Int.floor_eq_iff.mpr ⟨h1, h2⟩
  rw [this]

theorem round2_zero : round2 0 = 0 := by
  have := round2_eq_of_bounds 0 0 (le_refl _) (by norm_num) (by norm_num)
  simpa using this

/-! ## Positions and two-element sublists -/

theorem pair_sublist_of_getElem? {α : Type} (l : List α) :
    ∀ (i j : ℕ) (a b : α), i < j → l[i]? = some a → l[j]? = some b → [a, b].Sublist l := by
  induction l with
  | nil => intro i j a b _ h; simp at h
  | cons x l ih =>
    intro i j a b hij ha hb
    cases j with
    | zero => omega
    | succ j =>
      rw [List.getElem?_cons_succ] at hb
      cases i with
      | zero =>
        rw [List.getElem?_cons_zero] at ha
        rw [← Option.some.inj ha]
        exact List.Sublist.cons₂ _ (List.singleton_sublist.mpr (List.getElem?_mem hb))
      | succ i =>
        rw [List.getElem?_cons_succ] at ha
        exact List.Sublist.cons _ (ih i j a b (by omega) ha hb)

theorem getElem?_of_pair_sublist {α : Type} (l : List α) :
    ∀ (a b : α), [a, b].Sublist l → ∃ i j : ℕ, i < j ∧ l[i]? = some a ∧ l[j]? = some b := by
  induction l with
  | nil => intro a b h; simp at h
  | cons x l ih =>
    intro a b h
    cases h with
    | cons _ h =>
      obtain ⟨i, j, hij, ha, hb⟩ := ih a b h
      exact ⟨i + 1, j + 1, by omega, by simpa using ha, by simpa using hb⟩
    | cons₂ _ h =>
      obtain ⟨j, hj⟩ := List.getElem?_of_mem (List.singleton_sublist.mp h)
      exact ⟨0, j + 1, by omega, by simp, by simpa using hj⟩

/-- On valid input with both strategies supplied `analyzeSalesData` returns the
projection of the annotated, sorted aggregates. -/
theorem analyzeSalesData_valid (rev : RevenueFn) (bon : BonusFn) (sellers : List Seller)
    (products : List Product) (records : List PurchaseRecord)
    (hvalid : ValidInput sellers products records) :
    ∃ agg, aggregate rev sellers products records = .ok agg ∧
      analyzeSalesData (mkData sellers products records) (mkOptions rev bon) =
        .ok ((annotate bon (sortByProfit agg)).map project) ∧
      agg.length = sellers.length ∧
      (agg.map (·.sales_count)).sum = records.length ∧
      ∀ i s, sellers[i]? = some s → ∃ a, agg[i]? = some a ∧ a.id = s.id ∧
        a.name = s.first_name ++ " " ++ s.last_name ∧
        a.revenue = ((records.filter (fun r => ownerOf sellers r.seller_id = some i)).map
          (·.total_amount)).sum ∧
        a.sales_count = (records.filter (fun r => ownerOf sellers r.seller_id = some i)).length ∧
        a.profit = ((records.filter (fun r => ownerOf sellers r.seller_id = some i)).map
          (recordProfitAt rev (buildProductIndex products))).sum := by
  obtain ⟨hs, hp, hr, hres⟩ := hvalid
  obtain ⟨agg, hagg, hlen, hsum, hall⟩ := aggregate_valid rev sellers products records hres
  refine ⟨agg, hagg, ?_, hlen, hsum, hall⟩
  rw [analyzeSalesData_eq rev bon sellers products records hs hp hr, hagg]

/-- The aggregates carry the seller ids in input order. -/
theorem map_id_eq_of_pointwise (sellers : List Seller) (agg : List SellerStat)
    (hlen : agg.length = sellers.length)
    (hall : ∀ (i : ℕ) (s : Seller), sellers[i]? = some s →
      ∃ a : SellerStat, agg[i]? = some a ∧ a.id = s.id) :
    agg.map (·.id) = sellers.map (·.id) := by
  apply List.ext_getElem?
  intro i
  rw [List.getElem?_map, List.getElem?_map]
  cases hs : sellers[i]? with
  | none =>
    have : agg[i]? = none := by
      rw [List.getElem?_eq_none_iff] at hs ⊢
      omega
    rw [this]; rfl
  | some s =>
    obtain ⟨a, ha, hid⟩ := hall i s hs
    rw [ha]
    simp [hid]

/-- With pairwise distinct skus the index holds, for a sku, the one card that
carries it. -/
theorem indexedPrice_eq_purchasePriceOf (products : List Product)
    (hnd : (products.map (·.sku)).Nodup) (k : String) (h : ∃ p ∈ products, p.sku = k) :
    indexedPrice (buildProductIndex products) k = purchasePriceOf products k := by
  obtain ⟨p, hp⟩ := Option.isSome_iff_exists.mp (productIndex_isSome products k h)
  obtain ⟨hmem, hk⟩ := productIndex_some products k p hp
  obtain ⟨q, hq, hqk⟩ := h
  cases hf : products.find? (fun p => decide (p.sku = k)) with
  | none =>
    have := List.find?_eq_none.mp hf q hq
    simp [hqk] at this
  | some p' =>
    have hp'mem : p' ∈ products := List.mem_of_find?_eq_some hf
    have hp'k : p'.sku = k := by simpa using List.find?_some hf
    have : p' = p := List.inj_on_of_nodup_map hnd hp'mem hmem (by rw [hp'k, hk])
    simp only [indexedPrice, hp, purchasePriceOf, hf, this]

/-- Every report comes from one aggregate, which belongs to one input seller. -/
theorem report_origin (bon : BonusFn) (sellers : List Seller) (agg : List SellerStat)
    (hlen : agg.length = sellers.length) (k : ℕ) (hk : k < sellers.length) :
    ∃ (stat : SellerStat) (i : ℕ) (s : Seller), (sortByProfit agg)[k]? = some stat ∧
      agg[i]? = some stat ∧ sellers[i]? = some s ∧
      ((annotate bon (sortByProfit agg)).map project)[k]? =
        some (reportAt bon k sellers.length stat) := by
  have hk' : k < (sortByProfit agg).length := by rw [sortByProfit_length, hlen]; exact hk
  have hstat : (sortByProfit agg)[k]? = some (sortByProfit agg)[k] := List.getElem?_eq_getElem hk'
  have hmem : (sortByProfit agg)[k] ∈ agg :=
    (sortByProfit_perm agg).mem_iff.mp (List.getElem_mem hk')
  obtain ⟨i, hi⟩ := List.getElem?_of_mem hmem
  have hilt : i < sellers.length := by
    rw [← hlen]; exact (List.getElem?_eq_some_iff.mp hi).1
  refine ⟨_, i, sellers[i], hstat, hi, List.getElem?_eq_getElem hilt, ?_⟩
  rw [getElem?_reports, hstat, sortByProfit_length, hlen]
  rfl

theorem mem_reports (bon : BonusFn) (sellers : List Seller) (agg : List SellerStat)
    (hlen : agg.length = sellers.length) (rep : SellerReport)
    (hrep : rep ∈ (annotate bon (sortByProfit agg)).map project) :
    ∃ (k : ℕ) (stat : SellerStat) (i : ℕ) (s : Seller), agg[i]? = some stat ∧
      sellers[i]? = some s ∧ rep = reportAt bon k sellers.length stat := by
  obtain ⟨k, hk⟩ := List.getElem?_of_mem hrep
  have hklt : k < sellers.length := by
    have := (List.getElem?_eq_some_iff.mp hk).1
    rw [reports_length, sortByProfit_length, hlen] at this
    exact this
  obtain ⟨stat, i, s, _, hi, hs, hout⟩ := report_origin bon sellers agg hlen k hklt
  rw [hk] at hout
  exact ⟨k, stat, i, s, hi, hs, Option.some.inj hout⟩

/-! ## Worked examples -/

theorem round2_twenty : round2 20 = 20 := by
  have := round2_eq_of_bounds 20 2000 (by norm_num) (by norm_num) (by norm_num)
  rw [this]; norm_num

theorem round2_forty : round2 40 = 40 := by
  have := round2_eq_of_bounds 40 4000 (by norm_num) (by norm_num) (by norm_num)
  rw [this]; norm_num

theorem round2_three : round2 3 = 3 := by
  have := round2_eq_of_bounds 3 300 (by norm_num) (by norm_num) (by norm_num)
  rw [this]; norm_num

/-- The worked example of the specification, evaluated. -/
theorem analyzeSalesData_solo :
    analyzeSalesData (mkData soloSellers soloProducts soloRecords) defaultOptions =
      .ok [⟨"s1", "Ann Lee", 40, 20, 1, [⟨"A", 2⟩], 3⟩] := by
  simp [analyzeSalesData, validateData, mkData, mkOptions, defaultOptions, aggregate,
    soloSellers, soloProducts, soloRecords, initStats, buildSellerIndex, buildProductIndex,
    processRecord, processItem, JSObject.get?, JSObject.set, JSObject.read,
    JSObject.objectPrototypeKeys, recordSale, staysBefore, SoldValue.sub,
    SoldValue.ofNat_eq, calculateSimpleRevenue, List.enum, List.enumFrom, bind,
    Except.bind, pure, Except.pure, sortByProfit, annotate, topProducts,
    JSObject.entries, JSObject.arrayIndex?, calculateBonusByProfit]
  norm_num [project, round2_twenty, round2_forty, round2_three]

/-- The two-seller example evaluated: s2 is reported first, with the same
two-decimal profit as s1. -/
theorem analyzeSalesData_tie :
    analyzeSalesData (mkData tieSellers soloProducts tieRecords) defaultOptions =
      .ok [⟨"s2", "Bob Ray", 20, 10, 1, [⟨"A", 1⟩], 3 / 2⟩,
           ⟨"s1", "Ann Lee", 20, 10, 1, [⟨"A", 1⟩], 1⟩] := by
  have r1 : round2 (5001 / 500) = 10 := by
    have := round2_eq_of_bounds (5001 / 500) 1000 (by norm_num) (by norm_num) (by norm_num)
    rw [this]; norm_num
  have r2 : round2 (10001 / 1000) = 10 := by
    have := round2_eq_of_bounds (10001 / 1000) 1000 (by norm_num) (by norm_num) (by norm_num)
    rw [this]; norm_num
  have r3 : round2 (15003 / 10000) = 3 / 2 := by
    have := round2_eq_of_bounds (15003 / 10000) 150 (by norm_num) (by norm_num) (by norm_num)
    rw [this]; norm_num
  have r4 : round2 (10001 / 10000) = 1 := by
    have := round2_eq_of_bounds (10001 / 10000) 100 (by norm_num) (by norm_num) (by norm_num)
    rw [this]; norm_num
  simp [analyzeSalesData, validateData, mkData, mkOptions, defaultOptions, aggregate,
    tieSellers, soloProducts, tieRecords, initStats, buildSellerIndex, buildProductIndex,
    processRecord, processItem, JSObject.get?, JSObject.set, JSObject.read,
    JSObject.objectPrototypeKeys, recordSale, staysBefore, SoldValue.sub,
    SoldValue.ofNat_eq, calculateSimpleRevenue, List.enum, List.enumFrom, bind,
    Except.bind, pure, Except.pure, sortByProfit, annotate, topProducts,
    JSObject.entries, JSObject.arrayIndex?, calculateBonusByProfit]
  norm_num [project, round2_twenty, r1, r2, r3, r4]

/-- Stability of the sort: the aggregates with a given exact profit come out in
the order in which they went in. -/
theorem sortByProfit_filter_eq (l : List SellerStat) (v : ℚ) :
    (sortByProfit l).filter (fun a => a.profit = v) = l.filter (fun a => a.profit = v) := by
  have hpw : (l.filter (fun a => decide (a.profit = v))).Pairwise
      (fun a b => b.profit ≤ a.profit) := by
    apply List.pairwise_of_forall_mem_list
    intro a ha b hb
    have h1 : a.profit = v := by simpa using (List.mem_filter.mp ha).2
    have h2 : b.profit = v := by simpa using (List.mem_filter.mp hb).2
    rw [h1, h2]
  have hsub := sortByProfit_sublist l _ hpw (List.filter_sublist l)
  have hsub' := hsub.filter (fun a => decide (a.profit = v))
  rw [List.filter_filter] at hsub'
  simp only [Bool.and_self] at hsub'
  have hlen := ((sortByProfit_perm l).filter (fun a => decide (a.profit = v))).length_eq
  exact (hsub'.eq_of_length hlen.symm).symm

/-- In the sorted list a strictly greater exact profit stands strictly earlier. -/
theorem sortByProfit_strict (l : List SellerStat) (k m : ℕ) (a b : SellerStat)
    (ha : (sortByProfit l)[k]? = some a) (hb : (sortByProfit l)[m]? = some b)
    (hlt : b.profit < a.profit) : k < m := by
  by_contra hkm
  rcases Nat.lt_or_ge m k with h | h
  · have hsub := pair_sublist_of_getElem? _ m k b a h hb ha
    have hpair := (sortByProfit_sorted l).sublist hsub
    have hle : a.profit ≤ b.profit :=
      (List.pairwise_pair (R := fun a b : SellerStat => b.profit ≤ a.profit)).mp hpair
    exact absurd hlt (not_lt.mpr hle)
  · have hmk : k = m := by omega
    subst hmk
    rw [ha] at hb
    have := Option.some.inj hb
    subst this
    exact lt_irrefl _ hlt

/-! ## The claims -/

/-- C1: `calculateBonusByProfit` implements the four tiers with top-3 precedence:
for rank ≥ 0 and totalSellers ≥ 1 the result is 15% of the profit at rank 0, 10%
at rank 1 or 2 (whatever totalSellers is), 0 at a rank ≥ 3 that equals
totalSellers - 1, and 5% at every other rank; with totalSellers ≤ 3 every rank
below totalSellers gets the 15% or the 10% rule, never the zero rule. -/
theorem calculateBonusByProfit_tiers (rank total : ℤ) (seller : SellerStat)
    (hrank : 0 ≤ rank) (_htotal : 1 ≤ total) :
    (rank = 0 → calculateBonusByProfit rank total seller = seller.profit * (15 / 100)) ∧
    (rank = 1 ∨ rank = 2 →
      calculateBonusByProfit rank total seller = seller.profit * (10 / 100)) ∧
    (3 ≤ rank → rank = total - 1 → calculateBonusByProfit rank total seller = 0) ∧
    (3 ≤ rank → rank ≠ total - 1 →
      calculateBonusByProfit rank total seller = seller.profit * (5 / 100)) ∧
    (total ≤ 3 → rank < total →
      calculateBonusByProfit rank total seller =
        if rank = 0 then seller.profit * (15 / 100) else seller.profit * (10 / 100)) := by
  refine ⟨?_, ?_, ?_, ?_, ?_⟩
  · intro h
    simp [calculateBonusByProfit, h]
  · intro h
    have h0 : rank ≠ 0 := by omega
    simp [calculateBonusByProfit, h0, h]
  · intro h3 hlast
    have h0 : rank ≠ 0 := by omega
    have h12 : ¬ (rank = 1 ∨ rank = 2) := by omega
    simp only [calculateBonusByProfit, if_neg h0, if_neg h12, if_pos hlast]
  · intro h3 hlast
    have h0 : rank ≠ 0 := by omega
    have h12 : ¬ (rank = 1 ∨ rank = 2) := by omega
    simp only [calculateBonusByProfit, if_neg h0, if_neg h12, if_neg hlast]
  · intro ht hlt
    by_cases h0 : rank = 0
    · simp [calculateBonusByProfit, h0]
    · have h12 : rank = 1 ∨ rank = 2 := by omega
      simp only [calculateBonusByProfit, if_neg h0, if_pos h12]

theorem calculateBonusByProfit_tiers_witness :
    (0 : ℤ) ≤ 3 ∧ (1 : ℤ) ≤ 4 ∧
      calculateBonusByProfit 3 4 ⟨"s4", "Dan Roe", 0, 100, 0, []⟩ = 0 ∧
      calculateBonusByProfit 3 5 ⟨"s4", "Dan Roe", 0, 100, 0, []⟩ = 100 * (5 / 100) :=
  ⟨by decide, by decide,
    (calculateBonusByProfit_tiers 3 4 ⟨"s4", "Dan Roe", 0, 100, 0, []⟩ (by decide)
      (by decide)).2.2.1 (by decide) (by decide),
    (calculateBonusByProfit_tiers 3 5 ⟨"s4", "Dan Roe", 0, 100, 0, []⟩ (by decide)
      (by decide)).2.2.2.1 (by decide) (by decide)⟩

/-- C2: on valid input the report at position `i` carries the two-decimal rounding
of `calculateBonus(i, N, stat)`, where `N` is the number of sellers and `stat` is
the sorted aggregate at `i`, whose profit is the exact (unrounded) sum accumulated
for its seller; the reported profit is the rounding of that same exact profit.
With the default bonus strategy a single seller gets `round2 (profit * 0.15)`, and
four sellers get the multipliers 0.15, 0.10, 0.10, 0 at positions 0, 1, 2, 3. -/
theorem analyzeSalesData_bonus (rev : RevenueFn) (bon : BonusFn) (sellers : List Seller)
    (products : List Product) (records : List PurchaseRecord)
    (hvalid : ValidInput sellers products records) :
    ∃ agg, aggregate rev sellers products records = .ok agg ∧
      (∃ out, analyzeSalesData (mkData sellers products records) (mkOptions rev bon) = .ok out ∧
        out.length = sellers.length ∧
        ∀ i : ℕ, i < sellers.length → ∃ (stat : SellerStat) (rep : SellerReport) (j : ℕ),
          (sortByProfit agg)[i]? = some stat ∧ agg[j]? = some stat ∧
          stat.profit = ((records.filter (fun r => ownerOf sellers r.seller_id = some j)).map
            (recordProfitAt rev (buildProductIndex products))).sum ∧
          out[i]? = some rep ∧
          rep.bonus = round2 (bon (i : ℤ) (sellers.length : ℤ) stat) ∧
          rep.profit = round2 stat.profit) ∧
      (∃ out, analyzeSalesData (mkData sellers products records)
            (mkOptions rev calculateBonusByProfit) = .ok out ∧
        ∀ i : ℕ, i < sellers.length → ∃ (stat : SellerStat) (rep : SellerReport),
          (sortByProfit agg)[i]? = some stat ∧ out[i]? = some rep ∧
          (sellers.length = 1 → rep.bonus = round2 (stat.profit * (15 / 100))) ∧
          (sellers.length = 4 → rep.bonus =
            round2 (stat.profit * ([15 / 100, 10 / 100, 10 / 100, 0].getD i 0)))) := by
  obtain ⟨agg, hagg, hout, hlen, _, hall⟩ :=
    analyzeSalesData_valid rev bon sellers products records hvalid
  obtain ⟨agg', hagg', hout', _⟩ :=
    analyzeSalesData_valid rev calculateBonusByProfit sellers products records hvalid
  rw [hagg] at hagg'
  obtain rfl : agg = agg' := by injection hagg'
  refine ⟨agg, hagg, ⟨_, hout, by rw [reports_length, sortByProfit_length, hlen], ?_⟩,
    ⟨_, hout', ?_⟩⟩
  · intro i hi
    obtain ⟨stat, j, s, hstat, hj, hs, hrep⟩ := report_origin bon sellers agg hlen i hi
    obtain ⟨a, ha, _, _, _, _, hprof⟩ := hall j s hs
    rw [hj] at ha
    obtain rfl := Option.some.inj ha
    exact ⟨stat, _, j, hstat, hj, hprof, hrep, rfl, rfl⟩
  · intro i hi
    obtain ⟨stat, j, s, hstat, _, _, hrep⟩ :=
      report_origin calculateBonusByProfit sellers agg hlen i hi
    refine ⟨stat, _, hstat, hrep, ?_, ?_⟩
    · intro hN
      have hi0 : i = 0 := by omega
      subst hi0
      show round2 (calculateBonusByProfit _ _ stat) = _
      simp [calculateBonusByProfit]
    · intro hN
      show round2 (calculateBonusByProfit _ _ stat) = _
      rw [hN] at hi ⊢
      interval_cases i <;> simp [calculateBonusByProfit]

theorem analyzeSalesData_bonus_witness :
    ValidInput fourSellers soloProducts fourRecords ∧
    ∃ agg, aggregate calculateSimpleRevenue fourSellers soloProducts fourRecords = .ok agg ∧
      (∃ out, analyzeSalesData (mkData fourSellers soloProducts fourRecords)
            (mkOptions calculateSimpleRevenue calculateBonusByProfit) = .ok out ∧
        out.length = fourSellers.length ∧
        ∀ i : ℕ, i < fourSellers.length → ∃ (stat : SellerStat) (rep : SellerReport) (j : ℕ),
          (sortByProfit agg)[i]? = some stat ∧ agg[j]? = some stat ∧
          stat.profit =
            ((fourRecords.filter (fun r => ownerOf fourSellers r.seller_id = some j)).map
              (recordProfitAt calculateSimpleRevenue (buildProductIndex soloProducts))).sum ∧
          out[i]? = some rep ∧
          rep.bonus = round2 (calculateBonusByProfit (i : ℤ) (fourSellers.length : ℤ) stat) ∧
          rep.profit = round2 stat.profit) ∧
      (∃ out, analyzeSalesData (mkData fourSellers soloProducts fourRecords)
            (mkOptions calculateSimpleRevenue calculateBonusByProfit) = .ok out ∧
        ∀ i : ℕ, i < fourSellers.length → ∃ (stat : SellerStat) (rep : SellerReport),
          (sortByProfit agg)[i]? = some stat ∧ out[i]? = some rep ∧
          (fourSellers.length = 1 → rep.bonus = round2 (stat.profit * (15 / 100))) ∧
          (fourSellers.length = 4 → rep.bonus =
            round2 (stat.profit * ([15 / 100, 10 / 100, 10 / 100, 0].getD i 0)))) :=
  ⟨by decide, analyzeSalesData_bonus calculateSimpleRevenue calculateBonusByProfit fourSellers
    soloProducts fourRecords (by decide)⟩

/-- C3: on valid input `analyzeSalesData` returns exactly one report per input
seller, and the list of reported seller ids is a permutation of the list of
input seller ids. -/
theorem analyzeSalesData_ids_perm (rev : RevenueFn) (bon : BonusFn) (sellers : List Seller)
    (products : List Product) (records : List PurchaseRecord)
    (hvalid : ValidInput sellers products records) :
    ∃ out, analyzeSalesData (mkData sellers products records) (mkOptions rev bon) = .ok out ∧
      out.length = sellers.length ∧
      (out.map (·.seller_id)).Perm (sellers.map (·.id)) := by
  obtain ⟨agg, _, hout, hlen, _, hall⟩ :=
    analyzeSalesData_valid rev bon sellers products records hvalid
  refine ⟨_, hout, ?_, ?_⟩
  · rw [reports_length, sortByProfit_length, hlen]
  · rw [reports_map_id]
    have hids : agg.map (·.id) = sellers.map (·.id) :=
      map_id_eq_of_pointwise sellers agg hlen (fun i s hs => by
        obtain ⟨a, ha, hid, _⟩ := hall i s hs
        exact ⟨a, ha, hid⟩)
    rw [← hids]
    exact (sortByProfit_perm agg).map _

theorem analyzeSalesData_ids_perm_witness :
    ValidInput tieSellers soloProducts tieRecords ∧
    ∃ out, analyzeSalesData (mkData tieSellers soloProducts tieRecords)
        (mkOptions calculateSimpleRevenue calculateBonusByProfit) = .ok out ∧
      out.length = tieSellers.length ∧
      (out.map (·.seller_id)).Perm (tieSellers.map (·.id)) :=
  ⟨by decide, analyzeSalesData_ids_perm calculateSimpleRevenue calculateBonusByProfit tieSellers
    soloProducts tieRecords (by decide)⟩

/-- C4: on valid input the reports are sorted by reported (two-decimal) profit,
descending: a report never has a smaller profit than a later one. -/
theorem analyzeSalesData_sorted (rev : RevenueFn) (bon : BonusFn) (sellers : List Seller)
    (products : List Product) (records : List PurchaseRecord)
    (hvalid : ValidInput sellers products records) :
    ∃ out, analyzeSalesData (mkData sellers products records) (mkOptions rev bon) = .ok out ∧
      out.length = sellers.length ∧
      ∀ (i j : ℕ) (ri rj : SellerReport), i < j → out[i]? = some ri → out[j]? = some rj →
        rj.profit ≤ ri.profit := by
  obtain ⟨agg, _, hout, hlen, _, _⟩ :=
    analyzeSalesData_valid rev bon sellers products records hvalid
  refine ⟨_, hout, by rw [reports_length, sortByProfit_length, hlen], ?_⟩
  intro i j ri rj hij hi hj
  rw [getElem?_reports] at hi hj
  obtain ⟨si, hsi, rfl⟩ := Option.map_eq_some'.mp hi
  obtain ⟨sj, hsj, rfl⟩ := Option.map_eq_some'.mp hj
  have hsub := pair_sublist_of_getElem? _ i j si sj hij hsi hsj
  have hpair := (sortByProfit_sorted agg).sublist hsub
  have hle : sj.profit ≤ si.profit :=
    (List.pairwise_pair (R := fun a b : SellerStat => b.profit ≤ a.profit)).mp hpair
  exact round2_mono hle

theorem analyzeSalesData_sorted_witness :
    ValidInput fourSellers soloProducts fourRecords ∧
    ∃ out, analyzeSalesData (mkData fourSellers soloProducts fourRecords)
        (mkOptions calculateSimpleRevenue calculateBonusByProfit) = .ok out ∧
      out.length = fourSellers.length ∧
      ∀ (i j : ℕ) (ri rj : SellerReport), i < j → out[i]? = some ri → out[j]? = some rj →
        rj.profit ≤ ri.profit :=
  ⟨by decide, analyzeSalesData_sorted calculateSimpleRevenue calculateBonusByProfit fourSellers
    soloProducts fourRecords (by decide)⟩

/-- C5 (as stated) fails: sellers s1, s2 with exact profits 10.001 and 10.002 are
reported with the same profit 10.00, s2 first. -/
theorem analyzeSalesData_reported_ties_counterexample :
    ValidInput tieSellers soloProducts tieRecords ∧
      tieSellers.map (·.id) = ["s1", "s2"] ∧
      ∃ out ri rj,
        analyzeSalesData (mkData tieSellers soloProducts tieRecords) defaultOptions = .ok out ∧
        out[0]? = some ri ∧ out[1]? = some rj ∧ ri.profit = rj.profit ∧
        ri.seller_id = "s2" ∧ rj.seller_id = "s1" :=
  ⟨by decide, rfl, _, _, _, analyzeSalesData_tie, rfl, rfl, rfl, rfl, rfl⟩

/-- C5 (amended): on valid input, two sellers whose exact (unrounded) accumulated
profits are equal are reported in the order in which they stand in
`data.sellers`. -/
theorem analyzeSalesData_exact_ties_keep_order (rev : RevenueFn) (bon : BonusFn)
    (sellers : List Seller) (products : List Product) (records : List PurchaseRecord)
    (hvalid : ValidInput sellers products records) :
    ∃ agg out, aggregate rev sellers products records = .ok agg ∧
      agg.map (·.id) = sellers.map (·.id) ∧
      analyzeSalesData (mkData sellers products records) (mkOptions rev bon) = .ok out ∧
      ∀ (i j : ℕ) (a b : SellerStat), i < j → agg[i]? = some a → agg[j]? = some b →
        a.profit = b.profit →
        ∃ i' j' : ℕ, i' < j' ∧ out[i']? = some (reportAt bon i' sellers.length a) ∧
          out[j']? = some (reportAt bon j' sellers.length b) := by
  obtain ⟨agg, hagg, hout, hlen, _, hall⟩ :=
    analyzeSalesData_valid rev bon sellers products records hvalid
  refine ⟨agg, _, hagg, ?_, hout, ?_⟩
  · exact map_id_eq_of_pointwise sellers agg hlen (fun i s hs => by
      obtain ⟨a, ha, hid, _⟩ := hall i s hs
      exact ⟨a, ha, hid⟩)
  · intro i j a b hij ha hb hab
    have hsub := pair_sublist_of_getElem? agg i j a b hij ha hb
    have hpw : [a, b].Pairwise (fun a b : SellerStat => b.profit ≤ a.profit) :=
      List.pairwise_pair.mpr (le_of_eq hab.symm)
    obtain ⟨i', j', hij', ha', hb'⟩ :=
      getElem?_of_pair_sublist _ a b (sortByProfit_sublist agg _ hpw hsub)
    refine ⟨i', j', hij', ?_, ?_⟩
    · rw [getElem?_reports, ha', sortByProfit_length, hlen]; rfl
    · rw [getElem?_reports, hb', sortByProfit_length, hlen]; rfl

/-- C6: the seller sort is stable on the exact accumulated profit.  On valid input
the reports are the projections of the sorted aggregates; for every value the
aggregates whose exact profit is that value stand in the sorted list in the order
of `data.sellers`; and an aggregate with a strictly greater exact profit stands
strictly before one with a smaller exact profit. -/
theorem analyzeSalesData_sort_stable (rev : RevenueFn) (bon : BonusFn) (sellers : List Seller)
    (products : List Product) (records : List PurchaseRecord)
    (hvalid : ValidInput sellers products records) :
    ∃ agg out, aggregate rev sellers products records = .ok agg ∧
      agg.map (·.id) = sellers.map (·.id) ∧
      analyzeSalesData (mkData sellers products records) (mkOptions rev bon) = .ok out ∧
      (∀ k : ℕ, out[k]? = (sortByProfit agg)[k]?.map (reportAt bon k sellers.length)) ∧
      (∀ v : ℚ, (sortByProfit agg).filter (fun a => a.profit = v) =
        agg.filter (fun a => a.profit = v)) ∧
      (∀ (k m : ℕ) (a b : SellerStat), (sortByProfit agg)[k]? = some a →
        (sortByProfit agg)[m]? = some b → b.profit < a.profit → k < m) := by
  obtain ⟨agg, hagg, hout, hlen, _, hall⟩ :=
    analyzeSalesData_valid rev bon sellers products records hvalid
  refine ⟨agg, _, hagg, ?_, hout, ?_, sortByProfit_filter_eq agg, sortByProfit_strict agg⟩
  · exact map_id_eq_of_pointwise sellers agg hlen (fun i s hs => by
      obtain ⟨a, ha, hid, _⟩ := hall i s hs
      exact ⟨a, ha, hid⟩)
  · intro k
    rw [getElem?_reports, sortByProfit_length, hlen]

theorem analyzeSalesData_sort_stable_witness :
    ValidInput tieSellers soloProducts tieRecords ∧
    ∃ agg out, aggregate calculateSimpleRevenue tieSellers soloProducts tieRecords = .ok agg ∧
      agg.map (·.id) = tieSellers.map (·.id) ∧
      analyzeSalesData (mkData tieSellers soloProducts tieRecords)
        (mkOptions calculateSimpleRevenue calculateBonusByProfit) = .ok out ∧
      (∀ k : ℕ, out[k]? =
        (sortByProfit agg)[k]?.map (reportAt calculateBonusByProfit k tieSellers.length)) ∧
      (∀ v : ℚ, (sortByProfit agg).filter (fun a => a.profit = v) =
        agg.filter (fun a => a.profit = v)) ∧
      (∀ (k m : ℕ) (a b : SellerStat), (sortByProfit agg)[k]? = some a →
        (sortByProfit agg)[m]? = some b → b.profit < a.profit → k < m) :=
  ⟨by decide, analyzeSalesData_sort_stable calculateSimpleRevenue calculateBonusByProfit
    tieSellers soloProducts tieRecords (by decide)⟩

/-- C7: with pairwise distinct seller ids and skus, on valid input every report's
profit is the two-decimal rounding of the sum, over all line items of all
purchase records carrying that seller id, of `calculateRevenue(item)` minus the
purchase price of the item's product times the item's quantity.  On the worked
example (one seller, product A bought at 10, two units sold at 20 without
discount, default strategies) the report has profit 20, bonus 3, sales count 1 and
top products `[(A, 2)]`. -/
theorem analyzeSalesData_profit (rev : RevenueFn) (bon : BonusFn) (sellers : List Seller)
    (products : List Product) (records : List PurchaseRecord)
    (hvalid : ValidInput sellers products records)
    (hids : (sellers.map (·.id)).Nodup) (hskus : (products.map (·.sku)).Nodup) :
    (∃ out, analyzeSalesData (mkData sellers products records) (mkOptions rev bon) = .ok out ∧
      out.length = sellers.length ∧
      ∀ rep ∈ out,
        rep.profit = round2
          (((records.filter (fun r => r.seller_id = rep.seller_id)).map (fun r =>
            (r.items.map (fun item =>
              rev item none - purchasePriceOf products item.sku * item.quantity)).sum)).sum)) ∧
    analyzeSalesData (mkData soloSellers soloProducts soloRecords) defaultOptions =
      .ok [{ seller_id := "s1", name := "Ann Lee", revenue := 40, profit := 20,
             sales_count := 1, top_products := [{ sku := "A", quantity := 2 }], bonus := 3 }] := by
  refine ⟨?_, analyzeSalesData_solo⟩
  obtain ⟨agg, _, hout, hlen, _, hall⟩ :=
    analyzeSalesData_valid rev bon sellers products records hvalid
  refine ⟨_, hout, by rw [reports_length, sortByProfit_length, hlen], ?_⟩
  intro rep hrep
  obtain ⟨k, stat, i, s, hi, hs, rfl⟩ := mem_reports bon sellers agg hlen rep hrep
  obtain ⟨a, ha, hid, _, _, _, hprof⟩ := hall i s hs
  rw [hi] at ha
  obtain rfl := Option.some.inj ha
  have hfilter : records.filter (fun r => decide (ownerOf sellers r.seller_id = some i)) =
      records.filter (fun r => decide (r.seller_id = stat.id)) := by
    apply List.filter_congr
    intro r _
    rw [hid]
    exact decide_eq_decide.mpr (ownerOf_eq_iff sellers hids i s hs r.seller_id)
  rw [hfilter] at hprof
  show round2 stat.profit = _
  rw [hprof]
  congr 2
  apply List.map_congr_left
  intro r hr
  have hrmem : r ∈ records := (List.mem_filter.mp hr).1
  unfold recordProfitAt
  congr 1
  apply List.map_congr_left
  intro item hitem
  unfold itemProfitAt
  rw [indexedPrice_eq_purchasePriceOf products hskus item.sku
    ((hvalid.2.2.2 r hrmem).2 item hitem)]

theorem analyzeSalesData_profit_witness :
    ValidInput soloSellers soloProducts soloRecords ∧ (soloSellers.map (·.id)).Nodup ∧
    (soloProducts.map (·.sku)).Nodup ∧
    ∃ out, analyzeSalesData (mkData soloSellers soloProducts soloRecords)
        (mkOptions calculateSimpleRevenue calculateBonusByProfit) = .ok out ∧
      out.length = soloSellers.length ∧
      ∀ rep ∈ out,
        rep.profit = round2
          (((soloRecords.filter (fun r => r.seller_id = rep.seller_id)).map (fun r =>
            (r.items.map (fun item => calculateSimpleRevenue item none -
              purchasePriceOf soloProducts item.sku * item.quantity)).sum)).sum) :=
  ⟨by decide, by decide, by decide,
    (analyzeSalesData_profit calculateSimpleRevenue calculateBonusByProfit soloSellers
      soloProducts soloRecords (by decide) (by decide) (by decide)).1⟩

/-- C8: with pairwise distinct seller ids, on valid input every report's revenue
is the two-decimal rounding of the sum of `total_amount` over the purchase records
carrying that seller id (line items and revenue strategy play no part), and its
sales count is the number of those records. -/
theorem analyzeSalesData_revenue (rev : RevenueFn) (bon : BonusFn) (sellers : List Seller)
    (products : List Product) (records : List PurchaseRecord)
    (hvalid : ValidInput sellers products records)
    (hids : (sellers.map (·.id)).Nodup) :
    ∃ out, analyzeSalesData (mkData sellers products records) (mkOptions rev bon) = .ok out ∧
      out.length = sellers.length ∧
      ∀ rep ∈ out,
        rep.revenue = round2
          (((records.filter (fun r => r.seller_id = rep.seller_id)).map (·.total_amount)).sum) ∧
        rep.sales_count = (records.filter (fun r => r.seller_id = rep.seller_id)).length := by
  obtain ⟨agg, _, hout, hlen, _, hall⟩ :=
    analyzeSalesData_valid rev bon sellers products records hvalid
  refine ⟨_, hout, by rw [reports_length, sortByProfit_length, hlen], ?_⟩
  intro rep hrep
  obtain ⟨k, stat, i, s, hi, hs, rfl⟩ := mem_reports bon sellers agg hlen rep hrep
  obtain ⟨a, ha, hid, _, hrev, hcnt, _⟩ := hall i s hs
  rw [hi] at ha
  obtain rfl := Option.some.inj ha
  have hfilter : records.filter (fun r => decide (ownerOf sellers r.seller_id = some i)) =
      records.filter (fun r => decide (r.seller_id = stat.id)) := by
    apply List.filter_congr
    intro r _
    rw [hid]
    exact decide_eq_decide.mpr (ownerOf_eq_iff sellers hids i s hs r.seller_id)
  rw [hfilter] at hrev hcnt
  exact ⟨by show round2 stat.revenue = _; rw [hrev]; rfl, by show stat.sales_count = _; rw [hcnt]; rfl⟩

theorem analyzeSalesData_revenue_witness :
    ValidInput fourSellers soloProducts fourRecords ∧ (fourSellers.map (·.id)).Nodup ∧
    ∃ out, analyzeSalesData (mkData fourSellers soloProducts fourRecords)
        (mkOptions calculateSimpleRevenue calculateBonusByProfit) = .ok out ∧
      out.length = fourSellers.length ∧
      ∀ rep ∈ out,
        rep.revenue = round2
          (((fourRecords.filter (fun r => r.seller_id = rep.seller_id)).map
            (·.total_amount)).sum) ∧
        rep.sales_count = (fourRecords.filter (fun r => r.seller_id = rep.seller_id)).length :=
  ⟨by decide, by decide, analyzeSalesData_revenue calculateSimpleRevenue calculateBonusByProfit
    fourSellers soloProducts fourRecords (by decide) (by decide)⟩

/-- C9: on valid input (seller ids need not be distinct) the sales counts of the
reports add up to the number of purchase records. -/
theorem analyzeSalesData_sales_count_sum (rev : RevenueFn) (bon : BonusFn)
    (sellers : List Seller) (products : List Product) (records : List PurchaseRecord)
    (hvalid : ValidInput sellers products records) :
    ∃ out, analyzeSalesData (mkData sellers products records) (mkOptions rev bon) = .ok out ∧
      (out.map (·.sales_count)).sum = records.length := by
  obtain ⟨agg, _, hout, _, hsum, _⟩ :=
    analyzeSalesData_valid rev bon sellers products records hvalid
  refine ⟨_, hout, ?_⟩
  rw [reports_map_sales_count, ← hsum]
  exact ((sortByProfit_perm agg).map _).sum_eq

theorem analyzeSalesData_sales_count_sum_witness :
    ValidInput tieSellers soloProducts tieRecords ∧
    ∃ out, analyzeSalesData (mkData tieSellers soloProducts tieRecords)
        (mkOptions calculateSimpleRevenue calculateBonusByProfit) = .ok out ∧
      (out.map (·.sales_count)).sum = tieRecords.length :=
  ⟨by decide, analyzeSalesData_sales_count_sum calculateSimpleRevenue calculateBonusByProfit
    tieSellers soloProducts tieRecords (by decide)⟩

/-- C10: `calculateSimpleRevenue` returns
`sale_price * quantity * (1 - discount / 100)` for every line item, whatever the
product argument is and whatever the value of `discount` (no range check). -/
theorem calculateSimpleRevenue_formula (item : LineItem) (product product' : Option Product) :
    calculateSimpleRevenue item product =
        item.sale_price * item.quantity * (1 - item.discount / 100) ∧
      calculateSimpleRevenue item product = calculateSimpleRevenue item product' :=
  ⟨rfl, rfl⟩

/-- Data that passes the guard of lines 38-47 consists of three non-empty arrays. -/
theorem validateData_some (data : Option Data) (sellers : List Seller) (products : List Product)
    (records : List PurchaseRecord) (h : validateData data = some (sellers, products, records)) :
    data = mkData sellers products records ∧ sellers ≠ [] ∧ products ≠ [] ∧ records ≠ [] := by
  cases data with
  | none => simp [validateData] at h
  | some d =>
    obtain ⟨ds, dp, dr⟩ := d
    cases ds with
    | none => simp [validateData] at h
    | some s =>
      cases dp with
      | none => simp [validateData] at h
      | some p =>
        cases dr with
        | none => simp [validateData] at h
        | some r =>
          simp only [validateData] at h
          split at h
          · simp at h
          · rename_i hne
            simp only [Option.some.injEq, Prod.mk.injEq] at h
            obtain ⟨rfl, rfl, rfl⟩ := h
            simp only [List.length_eq_zero, not_or] at hne
            exact ⟨rfl, hne.1, hne.2.1, hne.2.2⟩

/-- C13: whatever `options` is, `analyzeSalesData` fails with `InvalidInputData`
when `data` is absent, when one of `data.sellers`, `data.products`,
`data.purchase_records` is not an array, or when one of the three is empty; in
particular an empty `sellers` array is rejected. -/
theorem analyzeSalesData_invalid_data (data : Option Data) (options : Options)
    (h : data = none ∨ ∃ d, data = some d ∧
      (d.sellers = none ∨ d.products = none ∨ d.purchase_records = none ∨
        d.sellers = some [] ∨ d.products = some [] ∨ d.purchase_records = some [])) :
    analyzeSalesData data options = .error .invalidInputData := by
  have hv : validateData data = none := by
    rcases h with rfl | ⟨d, rfl, hd⟩
    · rfl
    · obtain ⟨ds, dp, dr⟩ := d
      cases ds with
      | none => simp [validateData]
      | some s =>
        cases dp with
        | none => simp [validateData]
        | some p =>
          cases dr with
          | none => simp [validateData]
          | some r =>
            simp only [validateData]
            rw [if_pos]
            simp only [reduceCtorEq, Option.some.injEq, false_or] at hd
            rcases hd with h | h | h
            · left; rw [h]; rfl
            · right; left; rw [h]; rfl
            · right; right; rw [h]; rfl
  simp only [analyzeSalesData, hv]

theorem analyzeSalesData_invalid_data_witness :
    (mkData [] soloProducts soloRecords = none ∨ ∃ d, mkData [] soloProducts soloRecords = some d ∧
      (d.sellers = none ∨ d.products = none ∨ d.purchase_records = none ∨
        d.sellers = some [] ∨ d.products = some [] ∨ d.purchase_records = some [])) ∧
    analyzeSalesData (mkData [] soloProducts soloRecords) defaultOptions =
      .error .invalidInputData :=
  ⟨Or.inr ⟨_, rfl, Or.inr (Or.inr (Or.inr (Or.inl rfl)))⟩,
    analyzeSalesData_invalid_data (mkData [] soloProducts soloRecords) defaultOptions
      (Or.inr ⟨_, rfl, Or.inr (Or.inr (Or.inr (Or.inl rfl)))⟩)⟩

/-- C14: when `data` passes the data guard, `analyzeSalesData` fails with
`InvalidOptions` if `options` is not a non-null object, and with
`MissingStrategyFunctions` if `options` is an object lacking a callable
`calculateRevenue` or a callable `calculateBonus`; the failure is the same
whatever the purchase records hold, so nothing is aggregated. -/
theorem analyzeSalesData_invalid_options (data : Option Data) (options : Options)
    (sellers : List Seller) (products : List Product) (records : List PurchaseRecord)
    (hdata : validateData data = some (sellers, products, records)) :
    ((options = .nonObject ∨ options = .null) →
      analyzeSalesData data options = .error .invalidOptions) ∧
    (∀ (calculateRevenue : Option RevenueFn) (calculateBonus : Option BonusFn),
      options = .object calculateRevenue calculateBonus →
      (calculateRevenue = none ∨ calculateBonus = none) →
      analyzeSalesData data options = .error .missingStrategyFunctions) := by
  refine ⟨?_, ?_⟩
  · rintro (rfl | rfl) <;> simp only [analyzeSalesData, hdata]
  · rintro r b rfl hrb
    cases r with
    | none => simp only [analyzeSalesData, hdata]
    | some rev =>
      cases b with
      | none => simp only [analyzeSalesData, hdata]
      | some bon => simp at hrb

/-! ## Failure of the aggregation pass -/

/-- The item loop, when no read of the product index hits an inherited member:
it either succeeds, and then every sku was found in the product index, or fails
with the lookup error. -/
theorem foldlM_processItem_cases (rev : RevenueFn) (pidx : JSObject Product)
    (items : List LineItem)
    (hplain : ∀ it ∈ items, JSObject.read pidx it.sku ≠ .inherited) :
    ∀ s : SellerStat,
      (∃ s', items.foldlM (processItem rev pidx) s = .ok s' ∧
        ∀ it ∈ items, (JSObject.get? pidx it.sku).isSome) ∨
      items.foldlM (processItem rev pidx) s = .error .unresolvedReference := by
  induction items with
  | nil => intro s; exact Or.inl ⟨s, rfl, by simp⟩
  | cons it items ih =>
    intro s
    have hplain' : ∀ x ∈ items, JSObject.read pidx x.sku ≠ .inherited :=
      fun x hx => hplain x (List.mem_cons_of_mem _ hx)
    cases hp : JSObject.get? pidx it.sku with
    | none =>
      right
      have hread : JSObject.read pidx it.sku = .undefined := by
        have hne := hplain it (List.mem_cons_self _ _)
        unfold JSObject.read at hne ⊢
        rw [hp] at hne ⊢
        by_cases hk : it.sku ∈ JSObject.objectPrototypeKeys
        · simp only [if_pos hk] at hne
          exact absurd rfl hne
        · simp only [if_neg hk]
      rw [List.foldlM_cons]
      simp only [processItem, hread]
      rfl
    | some p =>
      obtain ⟨s1, h1, _⟩ := processItem_ok rev pidx s it (by rw [hp]; rfl)
      rcases ih hplain' s1 with ⟨s2, h2, hall⟩ | herr
      · left
        refine ⟨s2, by rw [List.foldlM_cons, h1]; exact h2, ?_⟩
        intro x hx
        rcases List.mem_cons.mp hx with rfl | hx
        · rw [hp]; rfl
        · exact hall x hx
      · right
        rw [List.foldlM_cons, h1]
        exact herr

/-- One record, when no read of the two indices hits an inherited member: it
either is processed, and then its seller id and all its skus were found, or fails
with the lookup error. -/
theorem processRecord_cases (rev : RevenueFn) (sidx : JSObject ℕ) (pidx : JSObject Product)
    (st : List SellerStat) (r : PurchaseRecord)
    (hseller : JSObject.read sidx r.seller_id ≠ .inherited)
    (hplain : ∀ it ∈ r.items, JSObject.read pidx it.sku ≠ .inherited) :
    (∃ st', processRecord rev sidx pidx st r = .ok st' ∧
      (JSObject.get? sidx r.seller_id).isSome ∧
      ∀ it ∈ r.items, (JSObject.get? pidx it.sku).isSome) ∨
    processRecord rev sidx pidx st r = .error .unresolvedReference := by
  cases hi : JSObject.get? sidx r.seller_id with
  | none =>
    right
    have hread : JSObject.read sidx r.seller_id = .undefined := by
      unfold JSObject.read at hseller ⊢
      rw [hi] at hseller ⊢
      by_cases hk : r.seller_id ∈ JSObject.objectPrototypeKeys
      · simp only [if_pos hk] at hseller
        exact absurd rfl hseller
      · simp only [if_neg hk]
    simp only [processRecord, hread]
  | some i =>
    have hread := JSObject.read_of_get? sidx r.seller_id i hi
    cases hs : st[i]? with
    | none => right; simp only [processRecord, hread, hs]
    | some s0 =>
      rcases foldlM_processItem_cases rev pidx r.items hplain
        { s0 with sales_count := s0.sales_count + 1, revenue := s0.revenue + r.total_amount }
        with ⟨s1, h1, hall⟩ | herr
      · left
        refine ⟨st.set i s1, ?_, rfl, hall⟩
        simp only [processRecord, hread, hs]
        rw [h1]
      · right
        simp only [processRecord, hread, hs]
        rw [herr]

theorem foldlM_processRecord_cases (rev : RevenueFn) (sidx : JSObject ℕ)
    (pidx : JSObject Product) (records : List PurchaseRecord)
    (hplain : ∀ r ∈ records, JSObject.read sidx r.seller_id ≠ .inherited ∧
      ∀ it ∈ r.items, JSObject.read pidx it.sku ≠ .inherited) :
    ∀ st : List SellerStat,
      (∃ st', records.foldlM (processRecord rev sidx pidx) st = .ok st' ∧
        ∀ r ∈ records, (JSObject.get? sidx r.seller_id).isSome ∧
          ∀ it ∈ r.items, (JSObject.get? pidx it.sku).isSome) ∨
      records.foldlM (processRecord rev sidx pidx) st = .error .unresolvedReference := by
  induction records with
  | nil => intro st; exact Or.inl ⟨st, rfl, by simp⟩
  | cons r records ih =>
    intro st
    have hplain' := fun x hx => hplain x (List.mem_cons_of_mem _ hx)
    obtain ⟨hr1, hr2⟩ := hplain r (List.mem_cons_self _ _)
    rcases processRecord_cases rev sidx pidx st r hr1 hr2 with ⟨st1, h1, hs, hp⟩ | herr
    · rcases ih hplain' st1 with ⟨st2, h2, hall⟩ | herr2
      · left
        refine ⟨st2, by rw [List.foldlM_cons, h1]; exact h2, ?_⟩
        intro x hx
        rcases List.mem_cons.mp hx with rfl | hx
        · exact ⟨hs, hp⟩
        · exact hall x hx
      · right
        rw [List.foldlM_cons, h1]
        exact herr2
    · right
      rw [List.foldlM_cons, herr]
      rfl

/-- A key that is resolved, or that names no inherited member, is not read as an
inherited member. -/
theorem JSObject.read_ne_inherited {β : Type} (o : JSObject β) (k : String)
    (h : (JSObject.get? o k).isSome ∨ k ∉ JSObject.objectPrototypeKeys) :
    JSObject.read o k ≠ .inherited := by
  unfold JSObject.read
  cases hg : JSObject.get? o k with
  | some v => intro e; cases e
  | none =>
    rcases h with h | h
    · rw [hg] at h; cases h
    · simp only [if_neg h]
      intro e; cases e

/-- When no unresolved key names a member of `Object.prototype`, the aggregation
pass either succeeds on resolving references or fails with the lookup error. -/
theorem aggregate_cases (rev : RevenueFn) (sellers : List Seller) (products : List Product)
    (records : List PurchaseRecord) (hplain : PlainKeys sellers products records) :
    (∃ agg, aggregate rev sellers products records = .ok agg ∧
      Resolves sellers products records) ∨
    aggregate rev sellers products records = .error .unresolvedReference := by
  have hread : ∀ r ∈ records,
      JSObject.read (buildSellerIndex (initStats sellers)) r.seller_id ≠ .inherited ∧
      ∀ it ∈ r.items, JSObject.read (buildProductIndex products) it.sku ≠ .inherited := by
    intro r hr
    obtain ⟨hs, hp⟩ := hplain r hr
    refine ⟨JSObject.read_ne_inherited _ _ ?_, fun it hit => JSObject.read_ne_inherited _ _ ?_⟩
    · rcases hs with hs | hs
      · obtain ⟨i, hi, _⟩ := ownerOf_isSome sellers r.seller_id hs
        left
        unfold ownerOf at hi
        rw [hi]; rfl
      · exact Or.inr hs
    · rcases hp it hit with hp | hp
      · exact Or.inl (productIndex_isSome products it.sku hp)
      · exact Or.inr hp
  rcases foldlM_processRecord_cases rev (buildSellerIndex (initStats sellers))
    (buildProductIndex products) records hread (initStats sellers) with ⟨agg, hagg, hall⟩ | herr
  · left
    refine ⟨agg, hagg, ?_⟩
    intro r hr
    obtain ⟨hs, hp⟩ := hall r hr
    constructor
    · obtain ⟨i, hi⟩ := Option.isSome_iff_exists.mp hs
      obtain ⟨s, hsi, hid⟩ := ownerOf_some sellers r.seller_id i hi
      exact ⟨s, List.getElem?_mem hsi, hid⟩
    · intro it hit
      obtain ⟨p, hp'⟩ := Option.isSome_iff_exists.mp (hp it hit)
      obtain ⟨hmem, hk⟩ := productIndex_some products it.sku p hp'
      exact ⟨p, hmem, hk⟩
  · exact Or.inr herr

/-- Away from the names of the members of `Object.prototype` an unresolved
reference is fatal: when `data` and `options` pass validation, no unresolved key
names such a member, and some seller id or sku is unresolved, `analyzeSalesData`
fails with the lookup error. -/
theorem analyzeSalesData_unresolved_of_plain_keys (data : Option Data) (rev : RevenueFn)
    (bon : BonusFn) (sellers : List Seller) (products : List Product)
    (records : List PurchaseRecord)
    (hdata : validateData data = some (sellers, products, records))
    (hplain : PlainKeys sellers products records)
    (hbad : (∃ r ∈ records, ∀ s ∈ sellers, s.id ≠ r.seller_id) ∨
      (∃ r ∈ records, ∃ it ∈ r.items, ∀ p ∈ products, p.sku ≠ it.sku)) :
    analyzeSalesData data (mkOptions rev bon) = .error .unresolvedReference := by
  have hagg : aggregate rev sellers products records = .error .unresolvedReference := by
    rcases aggregate_cases rev sellers products records hplain with ⟨agg, _, hres⟩ | herr
    · exfalso
      rcases hbad with ⟨r, hr, hno⟩ | ⟨r, hr, it, hit, hno⟩
      · obtain ⟨s, hs, hid⟩ := (hres r hr).1
        exact hno s hs hid
      · obtain ⟨p, hp, hk⟩ := (hres r hr).2 it hit
        exact hno p hp hk
    · exact herr
  simp only [analyzeSalesData, mkOptions, hdata, hagg]

/-- C18: when `data` passes the data guard, both default strategies are used and
every seller id and sku resolves, `analyzeSalesData` returns a result (one report
per seller) and raises none of its four errors. -/
theorem analyzeSalesData_total (data : Option Data) (sellers : List Seller)
    (products : List Product) (records : List PurchaseRecord)
    (hdata : validateData data = some (sellers, products, records))
    (hres : Resolves sellers products records) :
    (∃ out, analyzeSalesData data defaultOptions = .ok out ∧ out.length = sellers.length) ∧
    ∀ e, analyzeSalesData data defaultOptions ≠ .error e := by
  obtain ⟨rfl, hs, hp, hr⟩ := validateData_some data sellers products records hdata
  obtain ⟨agg, _, hout, hlen, _⟩ :=
    analyzeSalesData_valid calculateSimpleRevenue calculateBonusByProfit sellers products
      records ⟨hs, hp, hr, hres⟩
  refine ⟨⟨_, hout, by rw [reports_length, sortByProfit_length, hlen]⟩, ?_⟩
  intro e he
  rw [defaultOptions, hout] at he
  cases he

/-! ## More on rounding and on the default bonus -/

/-- A rounded value has at most two decimals. -/
theorem round2_two_decimals (x : ℚ) : ∃ n : ℤ, round2 x * 100 = (n : ℚ) := by
  unfold round2
  split
  · refine ⟨-⌊-x * 100 + 1 / 2⌋, ?_⟩
    push_cast
    ring
  · refine ⟨⌊x * 100 + 1 / 2⌋, ?_⟩
    ring

/-- Rounding moves a value by at most half a hundredth. -/
theorem round2_error (x : ℚ) : |round2 x - x| ≤ 5 / 1000 := by
  unfold round2
  split
  · have h1 := Int.floor_le (-x * 100 + 1 / 2)
    have h2 := Int.lt_floor_add_one (-x * 100 + 1 / 2)
    rw [abs_le]
    constructor <;> linarith
  · have h1 := Int.floor_le (x * 100 + 1 / 2)
    have h2 := Int.lt_floor_add_one (x * 100 + 1 / 2)
    rw [abs_le]
    constructor <;> linarith

/-- The default bonus of a non-negative profit is non-negative. -/
theorem calculateBonusByProfit_nonneg (i n : ℤ) (s : SellerStat) (h : 0 ≤ s.profit) :
    0 ≤ calculateBonusByProfit i n s := by
  unfold calculateBonusByProfit
  split_ifs <;> linarith

/-- Along positions below the total, with non-negative profits that never
increase, the default bonus never increases. -/
theorem calculateBonusByProfit_antitone (i j n : ℕ) (si sj : SellerStat) (hij : i < j)
    (hjn : j < n) (hj : 0 ≤ sj.profit) (hle : sj.profit ≤ si.profit) :
    calculateBonusByProfit (j : ℤ) (n : ℤ) sj ≤ calculateBonusByProfit (i : ℤ) (n : ℤ) si := by
  have hj0 : ¬ ((j : ℤ) = 0) := by omega
  have hilast : ¬ ((i : ℤ) = (n : ℤ) - 1) := by omega
  unfold calculateBonusByProfit
  rw [if_neg hj0]
  by_cases hi0 : (i : ℤ) = 0
  · rw [if_pos hi0]
    split_ifs <;> linarith
  · rw [if_neg hi0]
    by_cases hi12 : (i : ℤ) = 1 ∨ (i : ℤ) = 2
    · rw [if_pos hi12]
      split_ifs <;> linarith
    · rw [if_neg hi12, if_neg hilast]
      have hj12 : ¬ ((j : ℤ) = 1 ∨ (j : ℤ) = 2) := by omega
      rw [if_neg hj12]
      split_ifs <;> linarith

/-- C19: with the default bonus strategy, on valid input whose exact accumulated
profits are all non-negative, the reported bonuses are non-negative and never
increase along the output. -/
theorem analyzeSalesData_bonus_antitone (rev : RevenueFn) (sellers : List Seller)
    (products : List Product) (records : List PurchaseRecord) (agg : List SellerStat)
    (hvalid : ValidInput sellers products records)
    (hagg : aggregate rev sellers products records = .ok agg)
    (hnonneg : ∀ a ∈ agg, 0 ≤ a.profit) :
    ∃ out, analyzeSalesData (mkData sellers products records)
        (mkOptions rev calculateBonusByProfit) = .ok out ∧
      out.length = sellers.length ∧
      (∀ rep ∈ out, 0 ≤ rep.bonus) ∧
      ∀ (i j : ℕ) (ri rj : SellerReport), i < j → out[i]? = some ri → out[j]? = some rj →
        rj.bonus ≤ ri.bonus ∧ 0 ≤ rj.bonus := by
  obtain ⟨agg', hagg', hout, hlen, _, _⟩ :=
    analyzeSalesData_valid rev calculateBonusByProfit sellers products records hvalid
  rw [hagg] at hagg'
  obtain rfl : agg = agg' := by injection hagg'
  have hpos : ∀ (k : ℕ) (s : SellerStat), (sortByProfit agg)[k]? = some s → 0 ≤ s.profit :=
    fun k s hs => hnonneg s ((sortByProfit_perm agg).mem_iff.mp (List.getElem?_mem hs))
  have hbonus : ∀ (k : ℕ) (r : SellerReport),
      ((annotate calculateBonusByProfit (sortByProfit agg)).map project)[k]? = some r →
      ∃ s, (sortByProfit agg)[k]? = some s ∧ k < sellers.length ∧
        r.bonus = round2 (calculateBonusByProfit (k : ℤ) (sellers.length : ℤ) s) := by
    intro k r hr
    rw [getElem?_reports] at hr
    obtain ⟨s, hs, rfl⟩ := Option.map_eq_some'.mp hr
    have hk : k < sellers.length := by
      have := (List.getElem?_eq_some_iff.mp hs).1
      rw [sortByProfit_length, hlen] at this
      exact this
    refine ⟨s, hs, hk, ?_⟩
    rw [sortByProfit_length, hlen]
    rfl
  have hnn : ∀ (k : ℕ) (r : SellerReport),
      ((annotate calculateBonusByProfit (sortByProfit agg)).map project)[k]? = some r →
      0 ≤ r.bonus := by
    intro k r hr
    obtain ⟨s, hs, _, hb⟩ := hbonus k r hr
    rw [hb]
    exact round2_nonneg_of_nonneg _ (calculateBonusByProfit_nonneg _ _ s (hpos k s hs))
  refine ⟨_, hout, by rw [reports_length, sortByProfit_length, hlen], ?_, ?_⟩
  · intro rep hrep
    obtain ⟨k, hk⟩ := List.getElem?_of_mem hrep
    exact hnn k rep hk
  · intro i j ri rj hij hi hj
    refine ⟨?_, hnn j rj hj⟩
    obtain ⟨si, hsi, _, hbi⟩ := hbonus i ri hi
    obtain ⟨sj, hsj, hjn, hbj⟩ := hbonus j rj hj
    rw [hbi, hbj]
    apply round2_mono
    have hsub := pair_sublist_of_getElem? _ i j si sj hij hsi hsj
    have hle : sj.profit ≤ si.profit :=
      (List.pairwise_pair (R := fun a b : SellerStat => b.profit ≤ a.profit)).mp
        ((sortByProfit_sorted agg).sublist hsub)
    exact calculateBonusByProfit_antitone i j sellers.length si sj hij hjn (hpos j sj hsj) hle

/-- The aggregates of the four-seller example. -/
theorem aggregate_four :
    aggregate calculateSimpleRevenue fourSellers soloProducts fourRecords =
      .ok [⟨"s1", "Ann Lee", 20, 10, 1, [("A", 1)]⟩, ⟨"s2", "Bob Ray", 40, 20, 1, [("A", 2)]⟩,
           ⟨"s3", "Cy Orr", 60, 30, 1, [("A", 3)]⟩, ⟨"s4", "Dan Roe", 80, 40, 1, [("A", 4)]⟩] := by
  simp [aggregate, fourSellers, soloProducts, fourRecords, initStats, buildSellerIndex,
    buildProductIndex, processRecord, processItem, JSObject.get?, JSObject.set, JSObject.read,
    JSObject.objectPrototypeKeys, recordSale, staysBefore, SoldValue.sub, SoldValue.ofNat_eq,
    calculateSimpleRevenue, List.enum, List.enumFrom, bind, Except.bind, pure, Except.pure]
  norm_num

theorem analyzeSalesData_invalid_options_witness :
    validateData (mkData soloSellers soloProducts soloRecords) =
      some (soloSellers, soloProducts, soloRecords) ∧
    analyzeSalesData (mkData soloSellers soloProducts soloRecords) .null =
      .error .invalidOptions ∧
    analyzeSalesData (mkData soloSellers soloProducts soloRecords)
      (.object none (some calculateBonusByProfit)) = .error .missingStrategyFunctions :=
  ⟨rfl,
    (analyzeSalesData_invalid_options (mkData soloSellers soloProducts soloRecords) .null
      soloSellers soloProducts soloRecords rfl).1 (Or.inr rfl),
    (analyzeSalesData_invalid_options (mkData soloSellers soloProducts soloRecords)
      (.object none (some calculateBonusByProfit)) soloSellers soloProducts soloRecords rfl).2
      none (some calculateBonusByProfit) rfl (Or.inl rfl)⟩

/-- C15 fails on the code: a plain object inherits the members of
`Object.prototype`, so the seller id or sku `constructor` is found in an index
that does not hold it.  A receipt without line items under the seller id
`constructor` is passed over and the reports are returned; an unknown sku
`constructor` gives a cost `NaN` and the run goes on instead of failing. -/
theorem analyzeSalesData_inherited_reference :
    (∀ s ∈ soloSellers, s.id ≠ "constructor") ∧ (∀ p ∈ soloProducts, p.sku ≠ "constructor") ∧
    analyzeSalesData (mkData soloSellers soloProducts inheritedSellerRecords) defaultOptions =
      .ok [⟨"s1", "Ann Lee", 0, 0, 0, [], 0⟩] ∧
    analyzeSalesData (mkData soloSellers soloProducts inheritedSkuRecords) defaultOptions =
      .error .notANumber := by
  refine ⟨by decide, by decide, ?_, ?_⟩
  · simp [analyzeSalesData, validateData, mkData, mkOptions, defaultOptions, aggregate,
      soloSellers, soloProducts, inheritedSellerRecords, initStats, buildSellerIndex,
      buildProductIndex, processRecord, processItem, JSObject.get?, JSObject.set, JSObject.read,
      JSObject.objectPrototypeKeys, List.enum, List.enumFrom, bind, Except.bind, pure,
      Except.pure, sortByProfit, annotate, topProducts, JSObject.entries,
      calculateBonusByProfit]
    norm_num [project, round2_zero]
  · simp [analyzeSalesData, validateData, mkData, mkOptions, defaultOptions, aggregate,
      soloSellers, soloProducts, inheritedSkuRecords, initStats, buildSellerIndex,
      buildProductIndex, processRecord, processItem, JSObject.get?, JSObject.set, JSObject.read,
      JSObject.objectPrototypeKeys, List.enum, List.enumFrom, bind, Except.bind, pure,
      Except.pure]

theorem analyzeSalesData_total_witness :
    validateData (mkData fourSellers soloProducts fourRecords) =
      some (fourSellers, soloProducts, fourRecords) ∧
    Resolves fourSellers soloProducts fourRecords ∧
    (∃ out, analyzeSalesData (mkData fourSellers soloProducts fourRecords) defaultOptions =
      .ok out ∧ out.length = fourSellers.length) ∧
    ∀ e, analyzeSalesData (mkData fourSellers soloProducts fourRecords) defaultOptions ≠
      .error e :=
  ⟨rfl, by decide,
    analyzeSalesData_total (mkData fourSellers soloProducts fourRecords) fourSellers
      soloProducts fourRecords rfl (by decide)⟩

theorem analyzeSalesData_bonus_antitone_witness :
    ValidInput fourSellers soloProducts fourRecords ∧
    ∃ out, analyzeSalesData (mkData fourSellers soloProducts fourRecords)
        (mkOptions calculateSimpleRevenue calculateBonusByProfit) = .ok out ∧
      out.length = fourSellers.length ∧
      (∀ rep ∈ out, 0 ≤ rep.bonus) ∧
      ∀ (i j : ℕ) (ri rj : SellerReport), i < j → out[i]? = some ri → out[j]? = some rj →
        rj.bonus ≤ ri.bonus ∧ 0 ≤ rj.bonus :=
  ⟨by decide, analyzeSalesData_bonus_antitone calculateSimpleRevenue fourSellers soloProducts
    fourRecords _ (by decide) aggregate_four (by
      intro a ha
      simp only [List.mem_cons, List.mem_singleton, List.not_mem_nil, or_false] at ha
      rcases ha with rfl | rfl | rfl | rfl <;> norm_num)⟩

theorem round2_neg (x : ℚ) : round2 (-x) = -round2 x := by
  rcases lt_trichotomy x 0 with h | h | h
  · have h1 : ¬ (-x < 0) := by linarith
    simp only [round2, if_pos h, if_neg h1]
    ring
  · subst h
    simp [round2_zero]
  · have h1 : -x < 0 := by linarith
    have h2 : ¬ (x < 0) := by linarith
    simp only [round2, if_pos h1, if_neg h2, neg_neg]
    ring

/-- C16 fails on the code: the strategy is called with the line item only
(line 94), so a strategy that reads the product card sees none.  On the worked
the code accumulates `0 - 10 * 2 = -20`. -/
theorem analyzeSalesData_strategy_without_product :
    (∀ item ∈ [(⟨"A", 2, 20, 0⟩ : LineItem)],
      markupRevenue item (some ⟨"A", 10⟩) - 10 * item.quantity = 20) ∧
    analyzeSalesData (mkData soloSellers soloProducts soloRecords)
        (mkOptions markupRevenue calculateBonusByProfit) =
      .ok [⟨"s1", "Ann Lee", 40, -20, 1, [⟨"A", 2⟩], -3⟩] := by
  constructor
  · intro item hitem
    simp only [List.mem_singleton] at hitem
    subst hitem
    norm_num [markupRevenue]
  · have r1 : round2 (-20) = -20 := by rw [round2_neg, round2_twenty]
    have r2 : round2 (-3) = -3 := by rw [round2_neg, round2_three]
    simp [analyzeSalesData, validateData, mkData, mkOptions, aggregate,
      soloSellers, soloProducts, soloRecords, initStats, buildSellerIndex, buildProductIndex,
      processRecord, processItem, JSObject.get?, JSObject.set, JSObject.read,
    JSObject.objectPrototypeKeys, recordSale, staysBefore, SoldValue.sub, SoldValue.ofNat_eq, markupRevenue, List.enum,
      List.enumFrom, bind, Except.bind, pure, Except.pure, sortByProfit, annotate, topProducts,
      JSObject.entries, JSObject.arrayIndex?, calculateBonusByProfit]
    norm_num [project, round2_forty, r1, r2]

/-- C20 (as stated) fails: with a bonus strategy that reads `products_sold`,
swapping the two receipts of the only seller changes the bonus from 1 to 2. -/
theorem analyzeSalesData_record_order_counterexample :
    ValidInput soloSellers pairProducts pairRecords ∧
    pairRecordsSwapped.Perm pairRecords ∧
    analyzeSalesData (mkData soloSellers pairProducts pairRecords)
        (mkOptions calculateSimpleRevenue firstSoldBonus) =
      .ok [⟨"s1", "Ann Lee", 60, 30, 2, [⟨"B", 2⟩, ⟨"A", 1⟩], 1⟩] ∧
    analyzeSalesData (mkData soloSellers pairProducts pairRecordsSwapped)
        (mkOptions calculateSimpleRevenue firstSoldBonus) =
      .ok [⟨"s1", "Ann Lee", 60, 30, 2, [⟨"B", 2⟩, ⟨"A", 1⟩], 2⟩] := by
  have r1 : round2 60 = 60 := by
    have := round2_eq_of_bounds 60 6000 (by norm_num) (by norm_num) (by norm_num)
    rw [this]; norm_num
  have r2 : round2 30 = 30 := by
    have := round2_eq_of_bounds 30 3000 (by norm_num) (by norm_num) (by norm_num)
    rw [this]; norm_num
  have r3 : round2 1 = 1 := by
    have := round2_eq_of_bounds 1 100 (by norm_num) (by norm_num) (by norm_num)
    rw [this]; norm_num
  have r4 : round2 2 = 2 := by
    have := round2_eq_of_bounds 2 200 (by norm_num) (by norm_num) (by norm_num)
    rw [this]; norm_num
  refine ⟨by decide, List.Perm.swap _ _ _, ?_, ?_⟩
  · simp [analyzeSalesData, validateData, mkData, mkOptions, aggregate,
      soloSellers, pairProducts, pairRecords, initStats, buildSellerIndex, buildProductIndex,
      processRecord, processItem, JSObject.get?, JSObject.set, JSObject.read,
      JSObject.objectPrototypeKeys, recordSale, staysBefore, SoldValue.sub,
      SoldValue.ofNat_eq, calculateSimpleRevenue, List.enum, List.enumFrom, bind,
      Except.bind, pure, Except.pure, sortByProfit, annotate, topProducts,
      JSObject.entries, JSObject.arrayIndex?, firstSoldBonus]
    norm_num [project, r1, r2, r3, r4]
  · simp [analyzeSalesData, validateData, mkData, mkOptions, aggregate,
      soloSellers, pairProducts, pairRecordsSwapped, initStats, buildSellerIndex,
      buildProductIndex, processRecord, processItem, JSObject.get?, JSObject.set,
      JSObject.read, JSObject.objectPrototypeKeys, recordSale, staysBefore, SoldValue.sub,
      SoldValue.ofNat_eq, calculateSimpleRevenue, List.enum, List.enumFrom, bind, Except.bind, pure, Except.pure,
      sortByProfit, annotate, topProducts, JSObject.entries, JSObject.arrayIndex?,
      firstSoldBonus]
    norm_num [project, r1, r2, r3, r4]

/-! ## Dictionaries of numbers -/

theorem JSObject.get?_eq_none_iff {β : Type} (o : JSObject β) (k : String) :
    JSObject.get? o k = none ↔ k ∉ o.map Prod.fst := by
  induction o with
  | nil => simp [JSObject.get?]
  | cons kv rest ih =>
    obtain ⟨k0, v0⟩ := kv
    by_cases h : k0 = k
    · simp [JSObject.get?, h]
    · have h' : ¬ k = k0 := fun e => h e.symm
      simp [JSObject.get?, h, h', ih]

theorem JSObject.keys_set {β : Type} (o : JSObject β) (k : String) (v : β) :
    (JSObject.set o k v).map Prod.fst =
      if k ∈ o.map Prod.fst then o.map Prod.fst else o.map Prod.fst ++ [k] := by
  induction o with
  | nil => simp [JSObject.set]
  | cons kv rest ih =>
    obtain ⟨k0, v0⟩ := kv
    by_cases h : k0 = k
    · simp [JSObject.set, h]
    · have h' : ¬ k = k0 := fun e => h e.symm
      simp only [JSObject.set, if_neg h, List.map_cons, ih, List.mem_cons, h', false_or]
      split <;> simp

/-- With pairwise distinct keys, membership of a pair is a property read. -/
theorem JSObject.mem_iff_get? {β : Type} (o : JSObject β) (hnd : (o.map Prod.fst).Nodup)
    (k : String) (v : β) : (k, v) ∈ o ↔ JSObject.get? o k = some v := by
  induction o with
  | nil => simp [JSObject.get?]
  | cons kv rest ih =>
    obtain ⟨k0, v0⟩ := kv
    simp only [List.map_cons, List.nodup_cons] at hnd
    by_cases h : k0 = k
    · subst h
      have hnot : ∀ w, (k0, w) ∉ rest := fun w hw => hnd.1 (List.mem_map_of_mem Prod.fst hw)
      simp only [List.mem_cons, Prod.mk.injEq, true_and, JSObject.get?, if_true,
        Option.some.injEq]
      constructor
      · rintro (h | h)
        · exact h.symm
        · exact absurd h (hnot v)
      · intro h; exact Or.inl h.symm
    · have h' : ¬ k = k0 := fun e => h e.symm
      simp [JSObject.get?, h, h', ih hnd.2]

theorem tally_keys (o : JSObject ℚ) (it : LineItem) :
    (tally o it).map Prod.fst =
      if it.sku ∈ o.map Prod.fst then o.map Prod.fst else o.map Prod.fst ++ [it.sku] := by
  unfold tally
  cases h : JSObject.get? o it.sku with
  | none =>
    have hk : it.sku ∉ o.map Prod.fst := (JSObject.get?_eq_none_iff o it.sku).mp h
    simp only [JSObject.keys_set, if_neg hk, List.mem_append, List.mem_singleton, or_true,
      if_true]
  | some q =>
    have hk : it.sku ∈ o.map Prod.fst := by
      by_contra hk
      rw [(JSObject.get?_eq_none_iff o it.sku).mpr hk] at h
      cases h
    by_cases hq : q = 0
    · simp only [hq, if_true, JSObject.keys_set, if_pos hk]
    · simp only [hq, if_false, JSObject.keys_set, if_pos hk]

theorem tally_get? (o : JSObject ℚ) (it : LineItem) (k : String) :
    JSObject.get? (tally o it) k =
      if it.sku = k then some ((JSObject.get? o k).getD 0 + it.quantity)
      else JSObject.get? o k := by
  unfold tally
  by_cases hk : it.sku = k
  · subst hk
    cases h : JSObject.get? o it.sku with
    | none => simp [JSObject.get?_set]
    | some q =>
      by_cases hq : q = 0
      · simp [JSObject.get?_set, hq]
      · simp [JSObject.get?_set, hq, h]
  · cases h : JSObject.get? o it.sku with
    | none => simp [JSObject.get?_set, hk]
    | some q =>
      by_cases hq : q = 0
      · simp [JSObject.get?_set, hq, hk]
      · simp [JSObject.get?_set, hq, hk]

theorem foldl_tally_keys (items : List LineItem) :
    ∀ o : JSObject ℚ,
      (items.foldl tally o).map Prod.fst = firstSeen (o.map Prod.fst) (items.map (·.sku)) := by
  induction items with
  | nil => intro o; rfl
  | cons it items ih =>
    intro o
    rw [List.foldl_cons, ih, tally_keys]
    rfl

theorem soldQuantity_cons (it : LineItem) (items : List LineItem) (k : String) :
    soldQuantity (it :: items) k =
      (if it.sku = k then it.quantity else 0) + soldQuantity items k := by
  unfold soldQuantity
  by_cases h : it.sku = k
  · simp [List.filter_cons, h]
  · simp [List.filter_cons, h]

theorem soldQuantity_of_not_mem (items : List LineItem) (k : String)
    (h : k ∉ items.map (·.sku)) : soldQuantity items k = 0 := by
  unfold soldQuantity
  have : items.filter (fun it => decide (it.sku = k)) = [] := by
    rw [List.filter_eq_nil_iff]
    intro it hit
    simp only [decide_eq_true_eq]
    intro e
    exact h (List.mem_map.mpr ⟨it, hit, e⟩)
  rw [this]; rfl

theorem foldl_tally_get? (items : List LineItem) :
    ∀ (o : JSObject ℚ) (k : String),
      JSObject.get? (items.foldl tally o) k =
        if k ∈ items.map (·.sku) then some ((JSObject.get? o k).getD 0 + soldQuantity items k)
        else JSObject.get? o k := by
  induction items with
  | nil => intro o k; simp
  | cons it items ih =>
    intro o k
    rw [List.foldl_cons, ih, tally_get?, soldQuantity_cons]
    by_cases hk : it.sku = k
    · subst hk
      by_cases hmem : it.sku ∈ items.map (·.sku)
      · simp only [hmem, if_true, Option.getD_some, List.map_cons, List.mem_cons, true_or]
        congr 1; ring
      · simp only [hmem, if_false, if_true, List.map_cons, List.mem_cons, true_or,
          soldQuantity_of_not_mem items it.sku hmem, add_zero]
    · have hk' : ¬ k = it.sku := fun e => hk e.symm
      simp only [hk, if_false, List.map_cons, List.mem_cons, hk', false_or, zero_add]

theorem firstSeen_nodup (ks : List String) :
    ∀ seen : List String, seen.Nodup → (firstSeen seen ks).Nodup := by
  induction ks with
  | nil => intro seen h; exact h
  | cons k ks ih =>
    intro seen h
    unfold firstSeen
    apply ih
    split
    · exact h
    · rename_i hk
      exact List.Nodup.append h (List.nodup_singleton k) (by
        intro x hx hx'
        rw [List.mem_singleton] at hx'
        exact hk (hx' ▸ hx))

theorem mem_firstSeen (ks : List String) :
    ∀ (seen : List String) (k : String), k ∈ firstSeen seen ks ↔ k ∈ seen ∨ k ∈ ks := by
  induction ks with
  | nil => intro seen k; simp [firstSeen]
  | cons k0 ks ih =>
    intro seen k
    unfold firstSeen
    rw [ih]
    by_cases h : k0 ∈ seen
    · rw [if_pos h]
      constructor
      · rintro (h1 | h1)
        · exact Or.inl h1
        · exact Or.inr (List.mem_cons_of_mem _ h1)
      · rintro (h1 | h1)
        · exact Or.inl h1
        · rcases List.mem_cons.mp h1 with rfl | h1
          · exact Or.inl h
          · exact Or.inr h1
    · rw [if_neg h]
      simp only [List.mem_append, List.mem_singleton, List.mem_cons]
      tauto

/-- The keys of the recorded dictionary are the skus in order of first sale. -/
theorem sold_keys (items : List LineItem) :
    (items.foldl tally []).map Prod.fst = firstSeen [] (items.map (·.sku)) :=
  foldl_tally_keys items []

theorem sold_keys_nodup (items : List LineItem) :
    ((items.foldl tally []).map Prod.fst).Nodup := by
  rw [sold_keys]
  exact firstSeen_nodup _ [] List.nodup_nil

/-- A sku that was sold has an entry holding the sum of its quantities. -/
theorem sold_mem_of_item (items : List LineItem) (it : LineItem) (hit : it ∈ items) :
    (it.sku, soldQuantity items it.sku) ∈ items.foldl tally [] := by
  rw [JSObject.mem_iff_get? _ (sold_keys_nodup items), foldl_tally_get?,
    if_pos (List.mem_map.mpr ⟨it, hit, rfl⟩)]
  simp [JSObject.get?]

/-- An entry of the recorded dictionary belongs to a sold sku and holds the sum
of its quantities. -/
theorem sold_entry (items : List LineItem) (k : String) (q : ℚ)
    (h : (k, q) ∈ items.foldl tally []) :
    (∃ it ∈ items, it.sku = k) ∧ q = soldQuantity items k := by
  rw [JSObject.mem_iff_get? _ (sold_keys_nodup items), foldl_tally_get?] at h
  by_cases hk : k ∈ items.map (·.sku)
  · rw [if_pos hk] at h
    obtain ⟨it, hit, hsku⟩ := List.mem_map.mp hk
    refine ⟨⟨it, hit, hsku⟩, ?_⟩
    simp only [JSObject.get?, Option.getD_none, zero_add, Option.some.injEq] at h
    exact h.symm
  · rw [if_neg hk] at h
    simp [JSObject.get?] at h

theorem sold_length (items : List LineItem) :
    (items.foldl tally []).length = ((items.map (·.sku)).toFinset).card := by
  have h1 : (items.foldl tally []).length = (firstSeen [] (items.map (·.sku))).length := by
    rw [← sold_keys, List.length_map]
  rw [h1, ← List.toFinset_card_of_nodup (firstSeen_nodup _ [] List.nodup_nil)]
  congr 1
  ext k
  simp only [List.mem_toFinset, mem_firstSeen, List.not_mem_nil, false_or]

/-! ## What the aggregation pass leaves in `products_sold` -/

theorem processItem_sold (rev : RevenueFn) (pidx : JSObject Product) (s s' : SellerStat)
    (it : LineItem) (h : processItem rev pidx s it = .ok s') :
    s'.products_sold = recordSale s.products_sold it := by
  unfold processItem at h
  cases hp : JSObject.read pidx it.sku with
  | undefined => rw [hp] at h; cases h
  | inherited => rw [hp] at h; cases h
  | own p =>
    rw [hp] at h
    simp only [Except.ok.injEq] at h
    rw [← h]

theorem foldlM_processItem_sold (rev : RevenueFn) (pidx : JSObject Product)
    (items : List LineItem) :
    ∀ s s' : SellerStat, items.foldlM (processItem rev pidx) s = .ok s' →
      s'.products_sold = items.foldl recordSale s.products_sold := by
  induction items with
  | nil =>
    intro s s' h
    simp only [List.foldlM_nil, pure, Except.pure, Except.ok.injEq] at h
    rw [← h]; rfl
  | cons it items ih =>
    intro s s' h
    rw [List.foldlM_cons] at h
    cases h1 : processItem rev pidx s it with
    | error e => rw [h1] at h; cases h
    | ok s1 =>
      rw [h1] at h
      have := ih s1 s' h
      rw [this, processItem_sold rev pidx s s1 it h1, List.foldl_cons]

/-- A record that is processed either changes the aggregate of its seller, or
has no line items and changes nothing. -/
theorem processRecord_sold (rev : RevenueFn) (sidx : JSObject ℕ) (pidx : JSObject Product)
    (st st' : List SellerStat) (r : PurchaseRecord)
    (h : processRecord rev sidx pidx st r = .ok st') :
    (∃ i0 s0 s1, JSObject.get? sidx r.seller_id = some i0 ∧ st[i0]? = some s0 ∧
      st' = st.set i0 s1 ∧ s1.products_sold = r.items.foldl recordSale s0.products_sold) ∨
    (JSObject.get? sidx r.seller_id = none ∧ r.items = [] ∧ st' = st) := by
  unfold processRecord at h
  cases hg : JSObject.get? sidx r.seller_id with
  | none =>
    right
    have hread : JSObject.read sidx r.seller_id =
        if r.seller_id ∈ JSObject.objectPrototypeKeys then .inherited else .undefined := by
      simp only [JSObject.read, hg]
    rw [hread] at h
    by_cases hk : r.seller_id ∈ JSObject.objectPrototypeKeys
    · rw [if_pos hk] at h
      by_cases hitems : r.items = []
      · simp only [hitems, if_true] at h
        by_cases hp : r.seller_id = "__proto__"
        · rw [if_pos hp] at h; cases h
        · rw [if_neg hp] at h
          simp only [Except.ok.injEq] at h
          exact ⟨rfl, hitems, h.symm⟩
      · simp only [hitems, if_false] at h
        cases h
    · rw [if_neg hk] at h; cases h
  | some i0 =>
    left
    rw [JSObject.read_of_get? sidx r.seller_id i0 hg] at h
    cases hs : st[i0]? with
    | none => simp only [hs] at h; cases h
    | some s0 =>
      simp only [hs] at h
      cases h1 : r.items.foldlM (processItem rev pidx)
          { s0 with sales_count := s0.sales_count + 1, revenue := s0.revenue + r.total_amount } with
      | error e => rw [h1] at h; cases h
      | ok s1 =>
        rw [h1] at h
        simp only [Except.ok.injEq] at h
        have hsold := foldlM_processItem_sold rev pidx r.items _ s1 h1
        exact ⟨i0, s0, s1, rfl, hs, h.symm, hsold⟩

theorem foldlM_processRecord_sold (rev : RevenueFn) (sidx : JSObject ℕ)
    (pidx : JSObject Product) (records : List PurchaseRecord) :
    ∀ st st' : List SellerStat, records.foldlM (processRecord rev sidx pidx) st = .ok st' →
      st'.length = st.length ∧
      ∀ (i : ℕ) (s : SellerStat), st[i]? = some s → ∃ s', st'[i]? = some s' ∧
        s'.products_sold =
          ((records.filter (fun r => JSObject.get? sidx r.seller_id = some i)).flatMap
            (·.items)).foldl recordSale s.products_sold := by
  induction records with
  | nil =>
    intro st st' h
    simp only [List.foldlM_nil, pure, Except.pure, Except.ok.injEq] at h
    subst h
    exact ⟨rfl, fun i s hs => ⟨s, hs, rfl⟩⟩
  | cons r records ih =>
    intro st st' h
    rw [List.foldlM_cons] at h
    cases h1 : processRecord rev sidx pidx st r with
    | error e => rw [h1] at h; cases h
    | ok st1 =>
      rw [h1] at h
      obtain ⟨hlen, hall⟩ := ih _ st' h
      rcases processRecord_sold rev sidx pidx st st1 r h1 with
        ⟨i0, s0, s1, hi0, hs0, rfl, hsold⟩ | ⟨hnone, _, rfl⟩
      · have hlt : i0 < st.length := (List.getElem?_eq_some_iff.mp hs0).1
        refine ⟨by rw [hlen, List.length_set], ?_⟩
        intro i s hs
        by_cases hii : i0 = i
        · subst hii
          have hs' : s = s0 := by rw [hs0] at hs; exact (Option.some.inj hs).symm
          subst hs'
          obtain ⟨s', hs', hsold'⟩ := hall i0 s1 (by rw [List.getElem?_set_self hlt])
          refine ⟨s', hs', ?_⟩
          rw [hsold', hsold, List.filter_cons_of_pos (by simpa using hi0), List.flatMap_cons,
            List.foldl_append]
        · obtain ⟨s', hs', hsold'⟩ := hall i s (by rw [List.getElem?_set_ne hii]; exact hs)
          have hneg : ¬ (JSObject.get? sidx r.seller_id = some i) := by
            rw [hi0]; intro e; exact hii (Option.some.inj e)
          refine ⟨s', hs', ?_⟩
          rw [hsold', List.filter_cons_of_neg (by simpa using hneg)]
      · refine ⟨hlen, ?_⟩
        intro i s hs
        obtain ⟨s', hs', hsold'⟩ := hall i s hs
        have hneg : ¬ (JSObject.get? sidx r.seller_id = some i) := by
          rw [hnone]; intro e; cases e
        refine ⟨s', hs', ?_⟩
        rw [hsold', List.filter_cons_of_neg (by simpa using hneg)]

/-- After the aggregation pass `products_sold` of the aggregate at position `i`
is the dictionary obtained by recording, in order, the line items of the records
assigned to that position. -/
theorem aggregate_products_sold (rev : RevenueFn) (sellers : List Seller)
    (products : List Product) (records : List PurchaseRecord) (agg : List SellerStat)
    (hagg : aggregate rev sellers products records = .ok agg) (i : ℕ) (a : SellerStat)
    (ha : agg[i]? = some a) :
    a.products_sold = (itemsOf sellers records i).foldl recordSale [] := by
  obtain ⟨hlen, hall⟩ := foldlM_processRecord_sold rev (buildSellerIndex (initStats sellers))
    (buildProductIndex products) records (initStats sellers) agg hagg
  have hi : i < (initStats sellers).length := by
    rw [← hlen]; exact (List.getElem?_eq_some_iff.mp ha).1
  obtain ⟨s', hs', hsold⟩ := hall i _ (List.getElem?_eq_getElem hi)
  rw [ha] at hs'
  obtain rfl := Option.some.inj hs'
  rw [hsold]
  have : ((initStats sellers)[i]).products_sold = [] := by
    simp [initStats]
  rw [this]
  rfl

/-! ## Dictionaries of numbers inside `products_sold` -/

theorem get?_map_values {β γ : Type} (f : β → γ) (o : JSObject β) (k : String) :
    JSObject.get? (o.map (fun kv => (kv.1, f kv.2))) k = (JSObject.get? o k).map f := by
  induction o with
  | nil => rfl
  | cons kv rest ih =>
    obtain ⟨k0, v0⟩ := kv
    by_cases h : k0 = k
    · simp [JSObject.get?, h]
    · simp [JSObject.get?, h, ih]

theorem set_map_values {β γ : Type} (f : β → γ) (o : JSObject β) (k : String) (v : β) :
    JSObject.set (o.map (fun kv => (kv.1, f kv.2))) k (f v) =
      (JSObject.set o k v).map (fun kv => (kv.1, f kv.2)) := by
  induction o with
  | nil => rfl
  | cons kv rest ih =>
    obtain ⟨k0, v0⟩ := kv
    by_cases h : k0 = k
    · simp [JSObject.set, h]
    · simp [JSObject.set, h, ih]

theorem read_plainSold (o : JSObject ℚ) (k : String) (hk : k ∉ JSObject.objectPrototypeKeys) :
    JSObject.read (plainSold o) k =
      match JSObject.get? o k with
      | some q => .own (.number q)
      | none => .undefined := by
  rw [JSObject.read_of_not_inherited _ _ hk]
  unfold plainSold
  rw [get?_map_values]
  cases JSObject.get? o k <;> rfl

theorem set_plainSold (o : JSObject ℚ) (k : String) (q : ℚ) :
    JSObject.set (plainSold o) k (.number q) = plainSold (JSObject.set o k q) :=
  set_map_values SoldValue.number o k q

/-- For a sku that names no inherited member the update of lines 98-101 is the
update of a dictionary of numbers. -/
theorem recordSale_plainSold (o : JSObject ℚ) (it : LineItem)
    (hk : it.sku ∉ JSObject.objectPrototypeKeys) :
    recordSale (plainSold o) it = plainSold (tally o it) := by
  unfold recordSale tally
  rw [read_plainSold o it.sku hk]
  cases hg : JSObject.get? o it.sku with
  | none =>
    simp only [set_plainSold, read_plainSold _ it.sku hk, JSObject.get?_set, if_true,
      Option.getD_some]
  | some q =>
    by_cases hq : q = 0
    · simp only [hq, if_true, set_plainSold, read_plainSold _ it.sku hk, JSObject.get?_set,
        Option.getD_some]
    · simp only [hq, if_false, read_plainSold _ it.sku hk, hg, set_plainSold, Option.getD_some]

theorem foldl_recordSale_plainSold (items : List LineItem)
    (hk : ∀ it ∈ items, it.sku ∉ JSObject.objectPrototypeKeys) :
    ∀ o : JSObject ℚ, items.foldl recordSale (plainSold o) = plainSold (items.foldl tally o) := by
  induction items with
  | nil => intro o; rfl
  | cons it items ih =>
    intro o
    rw [List.foldl_cons, List.foldl_cons,
      recordSale_plainSold o it (hk it (List.mem_cons_self _ _)),
      ih (fun x hx => hk x (List.mem_cons_of_mem _ hx))]

/-! ## Enumeration order and the top-products list -/

theorem JSObject.entries_index_part {β : Type} (o : JSObject β) :
    (o.filterMap (fun kv => (JSObject.arrayIndex? kv.1).map (fun n => (n, kv)))).map Prod.snd =
      o.filter (fun kv => (JSObject.arrayIndex? kv.1).isSome) := by
  induction o with
  | nil => rfl
  | cons kv rest ih =>
    cases h : JSObject.arrayIndex? kv.1 with
    | none => simp [List.filterMap_cons, List.filter_cons, h, ih]
    | some n => simp [List.filterMap_cons, List.filter_cons, h, ih]

/-- Enumeration reorders the properties and loses none. -/
theorem JSObject.entries_perm {β : Type} (o : JSObject β) : (JSObject.entries o).Perm o := by
  unfold JSObject.entries
  have h1 : ((o.filterMap (fun kv => (JSObject.arrayIndex? kv.1).map
      (fun n => (n, kv)))).insertionSort (fun a b => a.1 ≤ b.1)).map Prod.snd |>.Perm
      (o.filter (fun kv => (JSObject.arrayIndex? kv.1).isSome)) := by
    rw [← JSObject.entries_index_part]
    exact (List.perm_insertionSort _ _).map _
  have h2 : o.filter (fun kv => (JSObject.arrayIndex? kv.1).isNone) =
      o.filter (fun kv => !(JSObject.arrayIndex? kv.1).isSome) := by
    apply List.filter_congr
    intro kv _
    cases JSObject.arrayIndex? kv.1 <;> rfl
  rw [h2]
  exact (h1.append_right _).trans (List.filter_append_perm _ o)

/-- Without array-index keys enumeration follows insertion order. -/
theorem JSObject.entries_eq_self {β : Type} (o : JSObject β)
    (h : ∀ kv ∈ o, JSObject.arrayIndex? kv.1 = none) : JSObject.entries o = o := by
  unfold JSObject.entries
  have h1 : o.filterMap (fun kv => (JSObject.arrayIndex? kv.1).map (fun n => (n, kv))) = [] := by
    rw [List.filterMap_eq_nil_iff]
    intro kv hkv
    rw [h kv hkv]; rfl
  have h2 : o.filter (fun kv => (JSObject.arrayIndex? kv.1).isNone) = o := by
    rw [List.filter_eq_self]
    intro kv hkv
    rw [h kv hkv]; rfl
  simp only [h1, h2, List.insertionSort, List.map_nil, List.nil_append]

/-- Enumeration looks at the keys only. -/
theorem JSObject.entries_map_values {β γ : Type} (f : β → γ) (o : JSObject β) :
    JSObject.entries (o.map (fun kv => (kv.1, f kv.2))) =
      (JSObject.entries o).map (fun kv => (kv.1, f kv.2)) := by
  unfold JSObject.entries
  have h1 : (o.map (fun kv => (kv.1, f kv.2))).filterMap
      (fun kv => (JSObject.arrayIndex? kv.1).map (fun n => (n, kv))) =
      (o.filterMap (fun kv => (JSObject.arrayIndex? kv.1).map (fun n => (n, kv)))).map
        (fun x => (x.1, (x.2.1, f x.2.2))) := by
    induction o with
    | nil => rfl
    | cons kv rest ih =>
      cases h : JSObject.arrayIndex? kv.1 with
      | none =>
        simp only [List.map_cons, List.filterMap_cons, h, Option.map_none']
        exact ih
      | some n =>
        simp only [List.map_cons, List.filterMap_cons, h, Option.map_some', List.cons.injEq,
          true_and]
        exact ih
  have h2 : (o.map (fun kv => (kv.1, f kv.2))).filter
      (fun kv => (JSObject.arrayIndex? kv.1).isNone) =
      (o.filter (fun kv => (JSObject.arrayIndex? kv.1).isNone)).map
        (fun kv => (kv.1, f kv.2)) := by
    rw [List.filter_map]
    rfl
  simp only [h1, h2, List.map_append]
  congr 1
  rw [← List.map_insertionSort (r := fun a b : ℕ × String × β => a.1 ≤ b.1)
    (s := fun a b : ℕ × String × γ => a.1 ≤ b.1) (fun x => (x.1, (x.2.1, f x.2.2))) _
    (fun a _ b _ => Iff.rfl)]
  rw [List.map_map, List.map_map]
  rfl

/-- Order of two entries in the enumeration: array-index keys come first, in
ascending numeric order, and the other keys keep the order of the object. -/
theorem JSObject.entries_pair_order {β : Type} (o : JSObject β) (x y : String × β)
    (h : [x, y].Sublist (JSObject.entries o)) :
    match JSObject.arrayIndex? x.1, JSObject.arrayIndex? y.1 with
    | some m, some n => m ≤ n
    | some _, none => True
    | none, some _ => False
    | none, none => [x, y].Sublist o := by
  unfold JSObject.entries at h
  have hsorted : ((o.filterMap (fun kv => (JSObject.arrayIndex? kv.1).map
      (fun n => (n, kv)))).insertionSort (fun a b => a.1 ≤ b.1)).Sorted
      (fun a b => a.1 ≤ b.1) := by
    haveI : IsTotal (ℕ × String × β) (fun a b => a.1 ≤ b.1) := ⟨fun a b => le_total a.1 b.1⟩
    haveI : IsTrans (ℕ × String × β) (fun a b => a.1 ≤ b.1) :=
      ⟨fun a b c hab hbc => le_trans hab hbc⟩
    exact List.sorted_insertionSort _ _
  have hidx : ∀ p ∈ (o.filterMap (fun kv => (JSObject.arrayIndex? kv.1).map
      (fun n => (n, kv)))).insertionSort (fun a b => a.1 ≤ b.1),
      JSObject.arrayIndex? p.2.1 = some p.1 := by
    intro p hp
    rw [List.mem_insertionSort, List.mem_filterMap] at hp
    obtain ⟨kv, _, hkv⟩ := hp
    obtain ⟨n, hn, rfl⟩ := Option.map_eq_some'.mp hkv
    exact hn
  have hstr : ∀ kv ∈ o.filter (fun kv => (JSObject.arrayIndex? kv.1).isNone),
      JSObject.arrayIndex? kv.1 = none := by
    intro kv hkv
    have := (List.mem_filter.mp hkv).2
    exact Option.isNone_iff_eq_none.mp this
  obtain ⟨l1, l2, hl, h1, h2⟩ := List.sublist_append_iff.mp h
  obtain ⟨l', hl', hmap⟩ := List.sublist_map_iff.mp h1
  match l1, l2, hl with
  | [], l2, hl =>
    simp only [List.nil_append] at hl
    subst hl
    have hx := hstr x (h2.subset (List.mem_cons_self _ _))
    have hy := hstr y (h2.subset (List.mem_cons_of_mem _ (List.mem_cons_self _ _)))
    rw [hx, hy]
    exact h2.trans (List.filter_sublist _)
  | [a], l2, hl =>
    simp only [List.singleton_append, List.cons.injEq] at hl
    obtain ⟨rfl, rfl⟩ := hl
    have hy := hstr y (h2.subset (List.mem_cons_self _ _))
    match l', hmap with
    | [p], hmap =>
      simp only [List.map_cons, List.map_nil, List.cons.injEq, and_true] at hmap
      have hx := hidx p (hl'.subset (List.mem_cons_self _ _))
      rw [hmap, hx, hy]
      trivial
  | [a, b], l2, hl =>
    simp only [List.cons_append, List.nil_append, List.cons.injEq] at hl
    obtain ⟨rfl, rfl, _⟩ := hl
    match l', hmap with
    | [p, q], hmap =>
      simp only [List.map_cons, List.map_nil, List.cons.injEq, and_true] at hmap
      obtain ⟨rfl, rfl⟩ := hmap
      have hp := hidx p (hl'.subset (List.mem_cons_self _ _))
      have hq := hidx q (hl'.subset (List.mem_cons_of_mem _ (List.mem_cons_self _ _)))
      rw [hp, hq]
      exact (List.pairwise_pair (R := fun a b : ℕ × String × β => a.1 ≤ b.1)).mp
        (hsorted.sublist hl')
  | a :: b :: c :: l1, l2, hl =>
    have := congrArg List.length hl
    simp at this

/-! ## The top entries of a dictionary of numbers -/

theorem sortByQuantity_sorted (l : List (String × ℚ)) :
    (l.insertionSort (fun a b => b.2 - a.2 ≤ 0)).Sorted (fun a b => b.2 - a.2 ≤ 0) := by
  haveI : IsTotal (String × ℚ) (fun a b => b.2 - a.2 ≤ 0) :=
    ⟨fun a b => by
      rcases le_total a.2 b.2 with h | h
      · right; linarith
      · left; linarith⟩
  haveI : IsTrans (String × ℚ) (fun a b => b.2 - a.2 ≤ 0) :=
    ⟨fun a b c hab hbc => by
      have h1 : b.2 - a.2 ≤ 0 := hab
      have h2 : c.2 - b.2 ≤ 0 := hbc
      show c.2 - a.2 ≤ 0
      linarith⟩
  exact List.sorted_insertionSort _ l

theorem sortByQuantity_filter_eq (l : List (String × ℚ)) (v : ℚ) :
    (l.insertionSort (fun a b => b.2 - a.2 ≤ 0)).filter (fun a => a.2 = v) =
      l.filter (fun a => a.2 = v) := by
  have hpw : (l.filter (fun a => decide (a.2 = v))).Pairwise (fun a b => b.2 - a.2 ≤ 0) := by
    apply List.pairwise_of_forall_mem_list
    intro a ha b hb
    have h1 : a.2 = v := by simpa using (List.mem_filter.mp ha).2
    have h2 : b.2 = v := by simpa using (List.mem_filter.mp hb).2
    rw [h1, h2]; simp
  have hsub := List.sublist_insertionSort hpw (List.filter_sublist l)
  have hsub' := hsub.filter (fun a => decide (a.2 = v))
  rw [List.filter_filter] at hsub'
  simp only [Bool.and_self] at hsub'
  have hlen := ((List.perm_insertionSort (fun a b : String × ℚ => b.2 - a.2 ≤ 0)
    l).filter (fun a => decide (a.2 = v))).length_eq
  exact (hsub'.eq_of_length hlen.symm).symm

theorem topEntries_length (o : JSObject ℚ) : (topEntries o).length ≤ 10 :=
  List.length_take_le _ _

theorem topEntries_sorted (o : JSObject ℚ) :
    (topEntries o).Pairwise (fun a b => b.2 ≤ a.2) := by
  have h := (sortByQuantity_sorted (JSObject.entries o)).sublist (List.take_sublist 10 _)
  exact List.Pairwise.imp
    (fun {a b : String × ℚ} (hab : b.2 - a.2 ≤ 0) => (by linarith : b.2 ≤ a.2)) h

/-- Two top entries with equal quantities stand in enumeration order. -/
theorem topEntries_ties (o : JSObject ℚ) (a b : String × ℚ)
    (hab : [a, b].Sublist (topEntries o)) (hq : a.2 = b.2) :
    [a, b].Sublist (JSObject.entries o) := by
  have h1 := hab.trans (List.take_sublist 10 _)
  have h2 := h1.filter (fun x => decide (x.2 = a.2))
  rw [sortByQuantity_filter_eq] at h2
  have h3 : [a, b].filter (fun x => decide (x.2 = a.2)) = [a, b] := by
    simp [List.filter_cons, hq]
  rw [h3] at h2
  exact h2.trans (List.filter_sublist _)

theorem topEntries_perm_take (o : JSObject ℚ) :
    ∃ rest, ((topEntries o) ++ rest).Perm o ∧
      (∀ x ∈ rest, ∀ e ∈ topEntries o, x.2 ≤ e.2) ∧ (o.length ≤ 10 → rest = []) := by
  refine ⟨((JSObject.entries o).insertionSort (fun a b => b.2 - a.2 ≤ 0)).drop 10, ?_, ?_, ?_⟩
  · unfold topEntries
    rw [List.take_append_drop]
    exact (List.perm_insertionSort _ _).trans (JSObject.entries_perm o)
  · intro x hx e he
    have := (sortByQuantity_sorted _).rel_of_mem_take_of_mem_drop he hx
    linarith
  · intro hlen
    apply List.drop_eq_nil_of_le
    rw [List.length_insertionSort, (JSObject.entries_perm o).length_eq]
    exact hlen

/-- On a dictionary of numbers `top_products` is the list of its top entries. -/
theorem topProducts_plainSold (o : JSObject ℚ) :
    topProducts (plainSold o) = (topEntries o).map plainEntry := by
  unfold topProducts topEntries plainSold
  rw [JSObject.entries_map_values, List.map_map, List.map_take]
  congr 1
  exact (List.map_insertionSort (r := fun a b : String × ℚ => b.2 - a.2 ≤ 0)
    (s := staysBefore) plainEntry _ (fun a _ b _ => Iff.rfl)).symm

/-- C11 (as stated) fails on the tie rule: s1 sells sku "2" first and sku "1"
second, one unit each, and `top_products` lists sku "1" before sku "2". -/
theorem analyzeSalesData_top_products_counterexample :
    ValidInput soloSellers numeralProducts numeralRecords ∧
    (itemsOfSeller numeralRecords "s1").map (·.sku) = ["2", "1"] ∧
    analyzeSalesData (mkData soloSellers numeralProducts numeralRecords) defaultOptions =
      .ok [⟨"s1", "Ann Lee", 40, 20, 1, [⟨"1", 1⟩, ⟨"2", 1⟩], 3⟩] := by
  have i1 : JSObject.arrayIndex? "1" = some 1 := by decide
  have i2 : JSObject.arrayIndex? "2" = some 2 := by decide
  refine ⟨by decide, by decide, ?_⟩
  simp [analyzeSalesData, validateData, mkData, mkOptions, defaultOptions, aggregate,
    soloSellers, numeralProducts, numeralRecords, initStats, buildSellerIndex,
    buildProductIndex, processRecord, processItem, JSObject.get?, JSObject.set, JSObject.read,
    JSObject.objectPrototypeKeys, recordSale, staysBefore, SoldValue.sub, SoldValue.ofNat_eq,
    calculateSimpleRevenue, List.enum, List.enumFrom, bind, Except.bind, pure, Except.pure,
    sortByProfit, annotate, topProducts, JSObject.entries, i1, i2, calculateBonusByProfit]
  norm_num [project, round2_twenty, round2_forty, round2_three]

/-- Without skus naming inherited members `products_sold` is a dictionary of
numbers: the tally of the line items assigned to the aggregate. -/
theorem aggregate_products_sold_plain (rev : RevenueFn) (sellers : List Seller)
    (products : List Product) (records : List PurchaseRecord) (agg : List SellerStat)
    (hagg : aggregate rev sellers products records = .ok agg) (hplain : PlainSkus records)
    (i : ℕ) (a : SellerStat) (ha : agg[i]? = some a) :
    a.products_sold = plainSold ((itemsOf sellers records i).foldl tally []) := by
  rw [aggregate_products_sold rev sellers products records agg hagg i a ha]
  have hk : ∀ it ∈ itemsOf sellers records i, it.sku ∉ JSObject.objectPrototypeKeys := by
    intro it hit
    unfold itemsOf at hit
    obtain ⟨r, hr, hitr⟩ := List.mem_flatMap.mp hit
    exact hplain r (List.mem_filter.mp hr).1 it hitr
  exact foldl_recordSale_plainSold _ hk []

/-- C11 (amended): on valid input in which no sku of a line item names a member
of `Object.prototype`, every report's `top_products` has at most 10 entries, all
quantities are numbers and they never increase, and of two entries with equal
quantities, listed in this order: if both skus are array-index strings, the
first has the smaller index; a sku that is no array-index string never stands
before one that is; and if neither is an array-index string, the first sku was
sold first by that seller. -/
theorem analyzeSalesData_top_products_order (rev : RevenueFn) (bon : BonusFn)
    (sellers : List Seller) (products : List Product) (records : List PurchaseRecord)
    (hvalid : ValidInput sellers products records) (hplain : PlainSkus records) :
    ∃ agg out, aggregate rev sellers products records = .ok agg ∧
      analyzeSalesData (mkData sellers products records) (mkOptions rev bon) = .ok out ∧
      out.length = sellers.length ∧
      ∀ k : ℕ, k < sellers.length → ∃ (stat : SellerStat) (rep : SellerReport) (j : ℕ),
        (sortByProfit agg)[k]? = some stat ∧ agg[j]? = some stat ∧ out[k]? = some rep ∧
        stat.products_sold.map Prod.fst =
          firstSeen [] ((itemsOf sellers records j).map (·.sku)) ∧
        rep.top_products.length ≤ 10 ∧
        (∀ e ∈ rep.top_products, ∃ q : ℚ, e.quantity = .number q) ∧
        rep.top_products.Pairwise (fun a b => ∀ x y : ℚ,
          a.quantity = .number x → b.quantity = .number y → y ≤ x) ∧
        ∀ a b : TopProduct, [a, b].Sublist rep.top_products → a.quantity = b.quantity →
          match JSObject.arrayIndex? a.sku, JSObject.arrayIndex? b.sku with
          | some m, some n => m ≤ n
          | some _, none => True
          | none, some _ => False
          | none, none =>
            [a.sku, b.sku].Sublist (firstSeen [] ((itemsOf sellers records j).map (·.sku))) := by
  obtain ⟨agg, hagg, hout, hlen, _, _⟩ :=
    analyzeSalesData_valid rev bon sellers products records hvalid
  refine ⟨agg, _, hagg, hout, by rw [reports_length, sortByProfit_length, hlen], ?_⟩
  intro k hk
  obtain ⟨stat, j, s, hstat, hj, _, hrep⟩ := report_origin bon sellers agg hlen k hk
  have hsold := aggregate_products_sold_plain rev sellers products records agg hagg hplain j
    stat hj
  have hkeys : stat.products_sold.map Prod.fst =
      firstSeen [] ((itemsOf sellers records j).map (·.sku)) := by
    rw [hsold, ← sold_keys]
    unfold plainSold
    rw [List.map_map]
    rfl
  have htop : (reportAt bon k sellers.length stat).top_products =
      (topEntries ((itemsOf sellers records j).foldl tally [])).map plainEntry := by
    show topProducts stat.products_sold = _
    rw [hsold, topProducts_plainSold]
  refine ⟨stat, _, j, hstat, hj, hrep, hkeys, ?_, ?_, ?_, ?_⟩
  · rw [htop, List.length_map]
    exact topEntries_length _
  · intro e he
    rw [htop] at he
    obtain ⟨kv, _, rfl⟩ := List.mem_map.mp he
    exact ⟨kv.2, rfl⟩
  · rw [htop, List.pairwise_map]
    refine List.Pairwise.imp ?_ (topEntries_sorted _)
    intro p q hpq x y hx hy
    have hx' : p.2 = x := by injection hx
    have hy' : q.2 = y := by injection hy
    rw [← hx', ← hy']
    exact hpq
  · intro a b hab hq
    rw [htop] at hab
    obtain ⟨l', hl', hmap⟩ := List.sublist_map_iff.mp hab
    match l', hmap with
    | [p, q], hmap =>
      simp only [List.map_cons, List.map_nil, List.cons.injEq, and_true] at hmap
      obtain ⟨rfl, rfl⟩ := hmap
      have hq' : p.2 = q.2 := by
        have : SoldValue.number p.2 = SoldValue.number q.2 := hq
        injection this
      have h1 := topEntries_ties _ p q hl' hq'
      have h2 := JSObject.entries_pair_order _ p q h1
      show match JSObject.arrayIndex? p.1, JSObject.arrayIndex? q.1 with
        | some m, some n => m ≤ n
        | some _, none => True
        | none, some _ => False
        | none, none =>
          [p.1, q.1].Sublist (firstSeen [] ((itemsOf sellers records j).map (·.sku)))
      cases hp : JSObject.arrayIndex? p.1 with
      | some m =>
        cases hqi : JSObject.arrayIndex? q.1 with
        | some n => rw [hp, hqi] at h2; exact h2
        | none => trivial
      | none =>
        cases hqi : JSObject.arrayIndex? q.1 with
        | some n => rw [hp, hqi] at h2; exact h2
        | none =>
          rw [hp, hqi] at h2
          have h3 := h2.map Prod.fst
          rw [sold_keys] at h3
          exact h3

/-- The run on the mixed receipt: four skus tie at one unit; the array-index
skus come first in ascending order, then B and A in the order of their sale. -/
theorem analyzeSalesData_mixed :
    (itemsOfSeller mixedRecords "s1").map (·.sku) = ["2", "1", "B", "A"] ∧
    analyzeSalesData (mkData soloSellers mixedProducts mixedRecords)
        (mkOptions calculateSimpleRevenue calculateBonusByProfit) =
      .ok [⟨"s1", "Ann Lee", 40, 20, 1, [⟨"1", 1⟩, ⟨"2", 1⟩, ⟨"B", 1⟩, ⟨"A", 1⟩], 3⟩] := by
  have i1 : JSObject.arrayIndex? "1" = some 1 := by decide
  have i2 : JSObject.arrayIndex? "2" = some 2 := by decide
  have iA : JSObject.arrayIndex? "A" = none := by decide
  have iB : JSObject.arrayIndex? "B" = none := by decide
  refine ⟨by decide, ?_⟩
  simp [analyzeSalesData, validateData, mkData, mkOptions, aggregate,
    soloSellers, mixedProducts, mixedRecords, initStats, buildSellerIndex,
    buildProductIndex, processRecord, processItem, JSObject.get?, JSObject.set, JSObject.read,
    JSObject.objectPrototypeKeys, recordSale, staysBefore, SoldValue.sub, SoldValue.ofNat_eq,
    calculateSimpleRevenue, List.enum, List.enumFrom, bind, Except.bind, pure, Except.pure,
    sortByProfit, annotate, topProducts, JSObject.entries, i1, i2, iA, iB,
    calculateBonusByProfit]
  norm_num [project, round2_twenty, round2_forty, round2_three]

theorem analyzeSalesData_top_products_order_witness :
    ValidInput soloSellers mixedProducts mixedRecords ∧ PlainSkus mixedRecords ∧
    (itemsOfSeller mixedRecords "s1").map (·.sku) = ["2", "1", "B", "A"] ∧
    analyzeSalesData (mkData soloSellers mixedProducts mixedRecords)
        (mkOptions calculateSimpleRevenue calculateBonusByProfit) =
      .ok [⟨"s1", "Ann Lee", 40, 20, 1, [⟨"1", 1⟩, ⟨"2", 1⟩, ⟨"B", 1⟩, ⟨"A", 1⟩], 3⟩] ∧
    ∃ agg out, aggregate calculateSimpleRevenue soloSellers mixedProducts mixedRecords =
        .ok agg ∧
      analyzeSalesData (mkData soloSellers mixedProducts mixedRecords)
        (mkOptions calculateSimpleRevenue calculateBonusByProfit) = .ok out ∧
      out.length = soloSellers.length ∧
      ∀ k : ℕ, k < soloSellers.length → ∃ (stat : SellerStat) (rep : SellerReport) (j : ℕ),
        (sortByProfit agg)[k]? = some stat ∧ agg[j]? = some stat ∧ out[k]? = some rep ∧
        stat.products_sold.map Prod.fst =
          firstSeen [] ((itemsOf soloSellers mixedRecords j).map (·.sku)) ∧
        rep.top_products.length ≤ 10 ∧
        (∀ e ∈ rep.top_products, ∃ q : ℚ, e.quantity = .number q) ∧
        rep.top_products.Pairwise (fun a b => ∀ x y : ℚ,
          a.quantity = .number x → b.quantity = .number y → y ≤ x) ∧
        ∀ a b : TopProduct, [a, b].Sublist rep.top_products → a.quantity = b.quantity →
          match JSObject.arrayIndex? a.sku, JSObject.arrayIndex? b.sku with
          | some m, some n => m ≤ n
          | some _, none => True
          | none, some _ => False
          | none, none =>
            [a.sku, b.sku].Sublist
              (firstSeen [] ((itemsOf soloSellers mixedRecords j).map (·.sku))) :=
  ⟨by decide, by decide, analyzeSalesData_mixed.1, analyzeSalesData_mixed.2,
    analyzeSalesData_top_products_order calculateSimpleRevenue
      calculateBonusByProfit soloSellers mixedProducts mixedRecords (by decide) (by decide)⟩

/-- C12 fails on the code: the product sku "toString" is valid input and
resolves, yet the guard of line 98 reads the method that the empty
`products_sold` inherits from `Object.prototype`, skips the initialisation, and
line 101 appends the quantity to the method's text: the only line item of s1
sells 2 units of the sku, and the reported quantity is that text followed by
"2", not the number 2. -/
theorem analyzeSalesData_inherited_quantity :
    ValidInput soloSellers inheritedProducts inheritedProductRecords ∧
    (soloSellers.map (·.id)).Nodup ∧
    soldQuantity (itemsOfSeller inheritedProductRecords "s1") "toString" = 2 ∧
    analyzeSalesData (mkData soloSellers inheritedProducts inheritedProductRecords)
        defaultOptions =
      .ok [⟨"s1", "Ann Lee", 40, 20, 1, [⟨"toString", .text [2]⟩], 3⟩] := by
  refine ⟨by decide, by decide, ?_, ?_⟩
  · simp [soldQuantity, itemsOfSeller, inheritedProductRecords]
  · simp [analyzeSalesData, validateData, mkData, mkOptions, defaultOptions, aggregate,
      soloSellers, inheritedProducts, inheritedProductRecords, initStats, buildSellerIndex,
      buildProductIndex, processRecord, processItem, JSObject.get?, JSObject.set,
      JSObject.read, JSObject.objectPrototypeKeys, recordSale, staysBefore, SoldValue.sub,
      SoldValue.ofNat_eq, calculateSimpleRevenue, List.enum, List.enumFrom, bind,
      Except.bind, pure, Except.pure, sortByProfit, annotate, topProducts, JSObject.entries,
      JSObject.arrayIndex?, calculateBonusByProfit]
    norm_num [project, round2_twenty, round2_forty, round2_three]

/-! ## Independence of the record order -/

/-- Permuting the records leaves everything in the aggregates but `products_sold`
unchanged. -/
theorem aggregate_perm (rev : RevenueFn) (sellers : List Seller) (products : List Product)
    (records records' : List PurchaseRecord) (hres : Resolves sellers products records)
    (hperm : records'.Perm records) :
    ∃ agg agg', aggregate rev sellers products records = .ok agg ∧
      aggregate rev sellers products records' = .ok agg' ∧
      agg'.map withoutSold = agg.map withoutSold := by
  have hres' : Resolves sellers products records' := fun r hr => hres r (hperm.mem_iff.mp hr)
  obtain ⟨agg, hagg, hlen, _, hall⟩ := aggregate_valid rev sellers products records hres
  obtain ⟨agg', hagg', hlen', _, hall'⟩ := aggregate_valid rev sellers products records' hres'
  refine ⟨agg, agg', hagg, hagg', ?_⟩
  apply List.ext_getElem?
  intro i
  rw [List.getElem?_map, List.getElem?_map]
  cases hs : sellers[i]? with
  | none =>
    have h1 : agg[i]? = none := by
      rw [List.getElem?_eq_none_iff] at hs ⊢; omega
    have h2 : agg'[i]? = none := by
      rw [List.getElem?_eq_none_iff] at hs ⊢; omega
    rw [h1, h2]
  | some s =>
    obtain ⟨a, ha, hid, hname, hrev, hcnt, hprof⟩ := hall i s hs
    obtain ⟨a', ha', hid', hname', hrev', hcnt', hprof'⟩ := hall' i s hs
    have hf := hperm.filter (fun r => decide (ownerOf sellers r.seller_id = some i))
    rw [ha, ha']
    simp only [Option.map_some', Option.some.injEq, withoutSold]
    have e1 : a'.revenue = a.revenue := by
      rw [hrev, hrev']; exact (hf.map _).sum_eq
    have e2 : a'.sales_count = a.sales_count := by
      rw [hcnt, hcnt']; exact hf.length_eq
    have e3 : a'.profit = a.profit := by
      rw [hprof, hprof']; exact (hf.map _).sum_eq
    rw [hid, hid', hname, hname', e1, e2, e3]

/-- The summed quantity of a sku does not depend on the order of the items. -/
theorem soldQuantity_perm {items items' : List LineItem} (h : items'.Perm items) (k : String) :
    soldQuantity items' k = soldQuantity items k := by
  unfold soldQuantity
  exact ((h.filter _).map _).sum_eq

/-- Permuting the line items permutes the tally. -/
theorem tally_perm {items items' : List LineItem} (h : items'.Perm items) :
    (items'.foldl tally []).Perm (items.foldl tally []) := by
  have hnd : ∀ l : List LineItem, (l.foldl tally []).Nodup :=
    fun l => List.Nodup.of_map _ (sold_keys_nodup l)
  rw [List.perm_ext_iff_of_nodup (hnd _) (hnd _)]
  rintro ⟨k, q⟩
  constructor
  · intro hm
    obtain ⟨⟨it, hit, rfl⟩, rfl⟩ := sold_entry _ _ _ hm
    rw [soldQuantity_perm h]
    exact sold_mem_of_item _ it (h.mem_iff.mp hit)
  · intro hm
    obtain ⟨⟨it, hit, rfl⟩, rfl⟩ := sold_entry _ _ _ hm
    rw [← soldQuantity_perm h]
    exact sold_mem_of_item _ it (h.mem_iff.mpr hit)

/-- The items assigned to a seller position under a permutation of the records. -/
theorem itemsOf_perm (sellers : List Seller) {records records' : List PurchaseRecord}
    (h : records'.Perm records) (i : ℕ) :
    (itemsOf sellers records' i).Perm (itemsOf sellers records i) := by
  unfold itemsOf
  exact (h.filter _).flatMap_right _

/-- Inserting related aggregates into related sorted lists keeps the lists
related position by position when the relation respects the comparison. -/
theorem orderedInsert_forall₂ {R : SellerStat → SellerStat → Prop}
    (hR : ∀ a' a b' b, R a' a → R b' b → (b'.profit - a'.profit ≤ 0 ↔ b.profit - a.profit ≤ 0))
    (a' a : SellerStat) (ha : R a' a) :
    ∀ l' l : List SellerStat, List.Forall₂ R l' l →
      List.Forall₂ R (l'.orderedInsert (fun a b => b.profit - a.profit ≤ 0) a')
        (l.orderedInsert (fun a b => b.profit - a.profit ≤ 0) a) := by
  intro l' l h
  induction h with
  | nil => exact List.Forall₂.cons ha List.Forall₂.nil
  | @cons b' b t' t hb ht ih =>
    rw [List.orderedInsert, List.orderedInsert]
    by_cases hc : b.profit - a.profit ≤ 0
    · have hc' : b'.profit - a'.profit ≤ 0 := (hR a' a b' b ha hb).mpr hc
      rw [if_pos hc, if_pos hc']
      exact List.Forall₂.cons ha (List.Forall₂.cons hb ht)
    · have hc' : ¬ b'.profit - a'.profit ≤ 0 := fun h => hc ((hR a' a b' b ha hb).mp h)
      rw [if_neg hc, if_neg hc']
      exact List.Forall₂.cons hb ih

/-- Sorting by profit keeps two lists of aggregates related position by
position when related aggregates have the same profit. -/
theorem sortByProfit_forall₂ {R : SellerStat → SellerStat → Prop}
    (hR : ∀ a' a, R a' a → a'.profit = a.profit) :
    ∀ l' l : List SellerStat, List.Forall₂ R l' l →
      List.Forall₂ R (sortByProfit l') (sortByProfit l) := by
  intro l' l h
  unfold sortByProfit
  induction h with
  | nil => exact List.Forall₂.nil
  | @cons a' a t' t ha _ ih =>
    rw [List.insertionSort, List.insertionSort]
    refine orderedInsert_forall₂ ?_ a' a ha _ _ ih
    intro x' x y' y hx hy
    rw [hR x' x hx, hR y' y hy]

/-- Permuting the records, without skus naming inherited members: the
aggregates keep all fields but `products_sold`, whose entries are permuted. -/
theorem aggregate_perm_sold (rev : RevenueFn) (sellers : List Seller) (products : List Product)
    (records records' : List PurchaseRecord) (hres : Resolves sellers products records)
    (hperm : records'.Perm records) (hplain : PlainSkus records) :
    ∃ agg agg', aggregate rev sellers products records = .ok agg ∧
      aggregate rev sellers products records' = .ok agg' ∧
      List.Forall₂ (fun s' s => withoutSold s' = withoutSold s ∧
        s'.products_sold.Perm s.products_sold) agg' agg := by
  obtain ⟨agg, agg', hagg, hagg', hcore⟩ :=
    aggregate_perm rev sellers products records records' hres hperm
  have hplain' : PlainSkus records' := fun r hr => hplain r (hperm.mem_iff.mp hr)
  refine ⟨agg, agg', hagg, hagg', ?_⟩
  have hlen : agg'.length = agg.length := by
    have := congrArg List.length hcore
    simpa using this
  rw [List.forall₂_iff_get]
  refine ⟨hlen, ?_⟩
  intro i hi' hi
  have ha' : agg'[i]? = some agg'[i] := List.getElem?_eq_getElem hi'
  have ha : agg[i]? = some agg[i] := List.getElem?_eq_getElem hi
  constructor
  · have := congrArg (fun l => l[i]?) hcore
    simp only [List.getElem?_map, ha, ha', Option.map_some', Option.some.injEq] at this
    exact this
  · show (agg'[i]).products_sold.Perm (agg[i]).products_sold
    rw [aggregate_products_sold_plain rev sellers products records' agg' hagg' hplain' i _ ha',
      aggregate_products_sold_plain rev sellers products records agg hagg hplain i _ ha]
    exact (tally_perm (itemsOf_perm sellers hperm i)).map _

/-- C20 (amended): take a bonus strategy whose result does not depend on the
order of the keys of `products_sold`, and let either no sku of a line item name a
member of `Object.prototype` or the strategy not read `products_sold` at all (the
default is such a strategy). Then on valid input every permutation of the
purchase records gives reports with the same seller id, name, revenue, profit,
sales count and bonus at every position. -/
theorem analyzeSalesData_record_order (rev : RevenueFn) (bon : BonusFn) (sellers : List Seller)
    (products : List Product) (records records' : List PurchaseRecord)
    (hvalid : ValidInput sellers products records) (hperm : records'.Perm records)
    (hbon : ∀ (i n : ℤ) (s s' : SellerStat), withoutSold s' = withoutSold s →
      s'.products_sold.Perm s.products_sold → bon i n s' = bon i n s)
    (hplain : PlainSkus records ∨
      ∀ (i n : ℤ) (s : SellerStat), bon i n s = bon i n (withoutSold s)) :
    ∃ out out', analyzeSalesData (mkData sellers products records) (mkOptions rev bon) = .ok out ∧
      analyzeSalesData (mkData sellers products records') (mkOptions rev bon) = .ok out' ∧
      out'.length = out.length ∧ out.length = sellers.length ∧
      ∀ (k : ℕ) (r : SellerReport), out[k]? = some r →
        ∃ r', out'[k]? = some r' ∧ r'.seller_id = r.seller_id ∧ r'.name = r.name ∧
          r'.revenue = r.revenue ∧ r'.profit = r.profit ∧
          r'.sales_count = r.sales_count ∧ r'.bonus = r.bonus := by
  obtain ⟨hs, hp, hr, hres⟩ := hvalid
  have hr' : records' ≠ [] := by
    intro h; rw [h] at hperm; exact hr (List.nil_perm.mp hperm)
  have key : ∃ agg agg', aggregate rev sellers products records = .ok agg ∧
      aggregate rev sellers products records' = .ok agg' ∧
      List.Forall₂ (fun s' s => withoutSold s' = withoutSold s ∧
        ∀ i n : ℤ, bon i n s' = bon i n s) agg' agg := by
    rcases hplain with hplain | hignore
    · obtain ⟨agg, agg', hagg, hagg', hrel⟩ :=
        aggregate_perm_sold rev sellers products records records' hres hperm hplain
      exact ⟨agg, agg', hagg, hagg',
        hrel.imp (fun s' s h => ⟨h.1, fun i n => hbon i n s s' h.1 h.2⟩)⟩
    · obtain ⟨agg, agg', hagg, hagg', hcore⟩ :=
        aggregate_perm rev sellers products records records' hres hperm
      refine ⟨agg, agg', hagg, hagg', ?_⟩
      have hlen : agg'.length = agg.length := by
        have := congrArg List.length hcore
        simpa using this
      rw [List.forall₂_iff_get]
      refine ⟨hlen, ?_⟩
      intro i hi' hi
      have ha' : agg'[i]? = some agg'[i] := List.getElem?_eq_getElem hi'
      have ha : agg[i]? = some agg[i] := List.getElem?_eq_getElem hi
      have hw : withoutSold agg'[i] = withoutSold agg[i] := by
        have := congrArg (fun l => l[i]?) hcore
        simp only [List.getElem?_map, ha, ha', Option.map_some', Option.some.injEq] at this
        exact this
      refine ⟨hw, fun j n => ?_⟩
      show bon j n agg'[i] = bon j n agg[i]
      rw [hignore j n agg'[i], hignore j n agg[i], hw]
  obtain ⟨agg, agg', hagg, hagg', hrel⟩ := key
  have hlen : agg.length = sellers.length := by
    obtain ⟨agg0, h0, hl, _⟩ := aggregate_valid rev sellers products records hres
    rw [hagg] at h0
    obtain rfl : agg = agg0 := by injection h0
    exact hl
  have hlen' : agg'.length = agg.length := hrel.length_eq
  have hsorted := sortByProfit_forall₂
    (fun (a' a : SellerStat) (h : withoutSold a' = withoutSold a ∧
        ∀ i n : ℤ, bon i n a' = bon i n a) =>
      (congrArg (fun x : SellerStat => x.profit) h.1 :
        (withoutSold a').profit = (withoutSold a).profit)) agg' agg hrel
  refine ⟨(annotate bon (sortByProfit agg)).map project,
    (annotate bon (sortByProfit agg')).map project, ?_, ?_, ?_, ?_, ?_⟩
  · rw [analyzeSalesData_eq rev bon sellers products records hs hp hr, hagg]
  · rw [analyzeSalesData_eq rev bon sellers products records' hs hp hr', hagg']
  · rw [reports_length, reports_length, sortByProfit_length, sortByProfit_length, hlen']
  · rw [reports_length, sortByProfit_length, hlen]
  · intro k r hk
    rw [getElem?_reports] at hk
    obtain ⟨s, hsk, rfl⟩ := Option.map_eq_some'.mp hk
    have hklt : k < (sortByProfit agg).length := by
      by_contra hge
      rw [List.getElem?_eq_none_iff.mpr (not_lt.mp hge)] at hsk
      exact Option.noConfusion hsk
    have e : (sortByProfit agg').length = (sortByProfit agg).length := hsorted.length_eq
    have hklt' : k < (sortByProfit agg').length := by rw [e]; exact hklt
    obtain ⟨hss', hbs⟩ := (List.forall₂_iff_get.mp hsorted).2 k hklt' hklt
    have hsk' : (sortByProfit agg')[k]? = some (sortByProfit agg')[k] :=
      List.getElem?_eq_getElem hklt'
    have hs_eq : (sortByProfit agg)[k] = s := by
      rw [List.getElem?_eq_getElem hklt] at hsk
      exact Option.some.inj hsk
    rw [List.get_eq_getElem, List.get_eq_getElem] at hss' hbs
    simp only [] at hss' hbs
    rw [hs_eq] at hss' hbs
    generalize (sortByProfit agg')[k] = s' at hss' hbs hsk'
    refine ⟨reportAt bon k (sortByProfit agg').length s', ?_, ?_⟩
    · rw [getElem?_reports, hsk']; rfl
    · have hid : s'.id = s.id := by
        have h := congrArg (fun x : SellerStat => x.id) hss'
        exact h
      have hname : s'.name = s.name := by
        have h := congrArg (fun x : SellerStat => x.name) hss'
        exact h
      have hrev : s'.revenue = s.revenue := by
        have h := congrArg (fun x : SellerStat => x.revenue) hss'
        exact h
      have hprof : s'.profit = s.profit := by
        have h := congrArg (fun x : SellerStat => x.profit) hss'
        exact h
      have hcnt : s'.sales_count = s.sales_count := by
        have h := congrArg (fun x : SellerStat => x.sales_count) hss'
        exact h
      refine ⟨hid, hname, congrArg round2 hrev, congrArg round2 hprof, hcnt, ?_⟩
      show round2 (bon _ _ s') = round2 (bon _ _ s)
      rw [e, hbs]

/-- The units-sold strategy does not depend on the order of the keys. -/
theorem soldTotalBonus_perm (i n : ℤ) (s s' : SellerStat)
    (_ : withoutSold s' = withoutSold s) (h : s'.products_sold.Perm s.products_sold) :
    soldTotalBonus i n s' = soldTotalBonus i n s := by
  unfold soldTotalBonus
  exact (h.map _).sum_eq

/-- The units-sold strategy on the two receipts of s1, in both orders: the bonus
is the 3 units sold. -/
theorem analyzeSalesData_sold_total :
    analyzeSalesData (mkData soloSellers pairProducts pairRecords)
        (mkOptions calculateSimpleRevenue soldTotalBonus) =
      .ok [⟨"s1", "Ann Lee", 60, 30, 2, [⟨"B", 2⟩, ⟨"A", 1⟩], 3⟩] ∧
    analyzeSalesData (mkData soloSellers pairProducts pairRecordsSwapped)
        (mkOptions calculateSimpleRevenue soldTotalBonus) =
      .ok [⟨"s1", "Ann Lee", 60, 30, 2, [⟨"B", 2⟩, ⟨"A", 1⟩], 3⟩] := by
  have r1 : round2 60 = 60 := by
    have := round2_eq_of_bounds 60 6000 (by norm_num) (by norm_num) (by norm_num)
    rw [this]; norm_num
  have r2 : round2 30 = 30 := by
    have := round2_eq_of_bounds 30 3000 (by norm_num) (by norm_num) (by norm_num)
    rw [this]; norm_num
  constructor
  · simp [analyzeSalesData, validateData, mkData, mkOptions, aggregate,
      soloSellers, pairProducts, pairRecords, initStats, buildSellerIndex, buildProductIndex,
      processRecord, processItem, JSObject.get?, JSObject.set, JSObject.read,
      JSObject.objectPrototypeKeys, recordSale, staysBefore, SoldValue.sub,
      SoldValue.ofNat_eq, calculateSimpleRevenue, List.enum, List.enumFrom, bind,
      Except.bind, pure, Except.pure, sortByProfit, annotate, topProducts,
      JSObject.entries, JSObject.arrayIndex?, soldTotalBonus]
    norm_num [project, r1, r2, round2_three]
  · simp [analyzeSalesData, validateData, mkData, mkOptions, aggregate,
      soloSellers, pairProducts, pairRecordsSwapped, initStats, buildSellerIndex,
      buildProductIndex, processRecord, processItem, JSObject.get?, JSObject.set,
      JSObject.read, JSObject.objectPrototypeKeys, recordSale, staysBefore, SoldValue.sub,
      SoldValue.ofNat_eq, calculateSimpleRevenue, List.enum, List.enumFrom, bind,
      Except.bind, pure, Except.pure, sortByProfit, annotate, topProducts,
      JSObject.entries, JSObject.arrayIndex?, soldTotalBonus]
    norm_num [project, r1, r2, round2_three]

theorem analyzeSalesData_record_order_witness :
    ValidInput soloSellers pairProducts pairRecords ∧ pairRecordsSwapped.Perm pairRecords ∧
    (∀ (i n : ℤ) (s s' : SellerStat), withoutSold s' = withoutSold s →
      s'.products_sold.Perm s.products_sold → soldTotalBonus i n s' = soldTotalBonus i n s) ∧
    PlainSkus pairRecords ∧
    analyzeSalesData (mkData soloSellers pairProducts pairRecords)
        (mkOptions calculateSimpleRevenue soldTotalBonus) =
      .ok [⟨"s1", "Ann Lee", 60, 30, 2, [⟨"B", 2⟩, ⟨"A", 1⟩], 3⟩] ∧
    ∃ out out', analyzeSalesData (mkData soloSellers pairProducts pairRecords)
        (mkOptions calculateSimpleRevenue soldTotalBonus) = .ok out ∧
      analyzeSalesData (mkData soloSellers pairProducts pairRecordsSwapped)
        (mkOptions calculateSimpleRevenue soldTotalBonus) = .ok out' ∧
      out'.length = out.length ∧ out.length = soloSellers.length ∧
      ∀ (k : ℕ) (r : SellerReport), out[k]? = some r →
        ∃ r', out'[k]? = some r' ∧ r'.seller_id = r.seller_id ∧ r'.name = r.name ∧
          r'.revenue = r.revenue ∧ r'.profit = r.profit ∧
          r'.sales_count = r.sales_count ∧ r'.bonus = r.bonus :=
  ⟨by decide, List.Perm.swap _ _ _, soldTotalBonus_perm, by decide,
    analyzeSalesData_sold_total.1,
    analyzeSalesData_record_order calculateSimpleRevenue soldTotalBonus soloSellers
      pairProducts pairRecords pairRecordsSwapped (by decide) (List.Perm.swap _ _ _)
      soldTotalBonus_perm (Or.inl (by decide))⟩

/-- The aggregates of the two even receipts: s1 and s2 tie at the profit 10. -/
theorem aggregate_even :
    aggregate calculateSimpleRevenue tieSellers soloProducts evenRecords =
      .ok [⟨"s1", "Ann Lee", 20, 10, 1, [("A", 1)]⟩, ⟨"s2", "Bob Ray", 20, 10, 1, [("A", 1)]⟩] := by
  simp [aggregate, tieSellers, soloProducts, evenRecords, initStats, buildSellerIndex,
    buildProductIndex, processRecord, processItem, JSObject.get?, JSObject.set, JSObject.read,
    JSObject.objectPrototypeKeys, recordSale, staysBefore, SoldValue.sub, SoldValue.ofNat_eq,
    calculateSimpleRevenue, List.enum, List.enumFrom, bind, Except.bind, pure, Except.pure]
  norm_num

/-- The run on the two even receipts: s1 is reported before s2. -/
theorem analyzeSalesData_even :
    analyzeSalesData (mkData tieSellers soloProducts evenRecords)
        (mkOptions calculateSimpleRevenue calculateBonusByProfit) =
      .ok [⟨"s1", "Ann Lee", 20, 10, 1, [⟨"A", 1⟩], 3 / 2⟩,
           ⟨"s2", "Bob Ray", 20, 10, 1, [⟨"A", 1⟩], 1⟩] := by
  have r1 : round2 10 = 10 := by
    have := round2_eq_of_bounds 10 1000 (by norm_num) (by norm_num) (by norm_num)
    rw [this]; norm_num
  have r3 : round2 (3 / 2) = 3 / 2 := by
    have := round2_eq_of_bounds (3 / 2) 150 (by norm_num) (by norm_num) (by norm_num)
    rw [this]; norm_num
  have r4 : round2 1 = 1 := by
    have := round2_eq_of_bounds 1 100 (by norm_num) (by norm_num) (by norm_num)
    rw [this]; norm_num
  simp [analyzeSalesData, validateData, mkData, mkOptions, aggregate,
    tieSellers, soloProducts, evenRecords, initStats, buildSellerIndex, buildProductIndex,
    processRecord, processItem, JSObject.get?, JSObject.set, JSObject.read,
    JSObject.objectPrototypeKeys, recordSale, staysBefore, SoldValue.sub, SoldValue.ofNat_eq,
    calculateSimpleRevenue, List.enum, List.enumFrom, bind, Except.bind, pure, Except.pure,
    sortByProfit, annotate, topProducts, JSObject.entries, JSObject.arrayIndex?,
    calculateBonusByProfit]
  norm_num [project, round2_twenty, r1, r3, r4]

theorem analyzeSalesData_exact_ties_keep_order_witness :
    ValidInput tieSellers soloProducts evenRecords ∧
    aggregate calculateSimpleRevenue tieSellers soloProducts evenRecords =
      .ok [⟨"s1", "Ann Lee", 20, 10, 1, [("A", 1)]⟩, ⟨"s2", "Bob Ray", 20, 10, 1, [("A", 1)]⟩] ∧
    analyzeSalesData (mkData tieSellers soloProducts evenRecords)
        (mkOptions calculateSimpleRevenue calculateBonusByProfit) =
      .ok [⟨"s1", "Ann Lee", 20, 10, 1, [⟨"A", 1⟩], 3 / 2⟩,
           ⟨"s2", "Bob Ray", 20, 10, 1, [⟨"A", 1⟩], 1⟩] ∧
    ∃ agg out, aggregate calculateSimpleRevenue tieSellers soloProducts evenRecords = .ok agg ∧
      agg.map (·.id) = tieSellers.map (·.id) ∧
      analyzeSalesData (mkData tieSellers soloProducts evenRecords)
        (mkOptions calculateSimpleRevenue calculateBonusByProfit) = .ok out ∧
      ∀ (i j : ℕ) (a b : SellerStat), i < j → agg[i]? = some a → agg[j]? = some b →
        a.profit = b.profit →
        ∃ i' j' : ℕ, i' < j' ∧
          out[i']? = some (reportAt calculateBonusByProfit i' tieSellers.length a) ∧
          out[j']? = some (reportAt calculateBonusByProfit j' tieSellers.length b) :=
  ⟨by decide, aggregate_even, analyzeSalesData_even,
    analyzeSalesData_exact_ties_keep_order calculateSimpleRevenue
      calculateBonusByProfit tieSellers soloProducts evenRecords (by decide)⟩

/-! ## The content of the top-products list -/

/-- With pairwise distinct seller ids and no sku naming a member of
`Object.prototype`, on valid input every report's `top_products` lists pairwise
distinct skus; each entry belongs to a sku the seller sold and holds the sum of
the quantities of the seller's line items with that sku; a sku the seller sold
that is not listed has a summed quantity no greater than the quantity of any
listed entry; and when the seller sold at most 10 distinct skus, all of them are
listed. -/
theorem top_products_content_of_plain_skus (rev : RevenueFn) (bon : BonusFn)
    (sellers : List Seller) (products : List Product) (records : List PurchaseRecord)
    (hvalid : ValidInput sellers products records) (hids : (sellers.map (·.id)).Nodup)
    (hplain : PlainSkus records) :
    ∃ out, analyzeSalesData (mkData sellers products records) (mkOptions rev bon) = .ok out ∧
      out.length = sellers.length ∧
      ∀ rep ∈ out,
        (rep.top_products.map (·.sku)).Nodup ∧
        (∀ e ∈ rep.top_products,
          (∃ it ∈ itemsOfSeller records rep.seller_id, it.sku = e.sku) ∧
          e.quantity = .number (soldQuantity (itemsOfSeller records rep.seller_id) e.sku)) ∧
        (∀ it ∈ itemsOfSeller records rep.seller_id,
          it.sku ∉ rep.top_products.map (·.sku) →
          ∀ e ∈ rep.top_products, ∃ q : ℚ, e.quantity = .number q ∧
            soldQuantity (itemsOfSeller records rep.seller_id) it.sku ≤ q) ∧
        ((((itemsOfSeller records rep.seller_id).map (·.sku)).toFinset).card ≤ 10 →
          ∀ it ∈ itemsOfSeller records rep.seller_id,
            it.sku ∈ rep.top_products.map (·.sku)) := by
  obtain ⟨agg, hagg, hout, hlen, _, hall⟩ :=
    analyzeSalesData_valid rev bon sellers products records hvalid
  refine ⟨_, hout, by rw [reports_length, sortByProfit_length, hlen], ?_⟩
  intro rep hrep
  obtain ⟨k, stat, i, s, hi, hs, rfl⟩ := mem_reports bon sellers agg hlen rep hrep
  obtain ⟨a, ha, hid, _⟩ := hall i s hs
  rw [hi] at ha
  obtain rfl := Option.some.inj ha
  have hitems : itemsOf sellers records i = itemsOfSeller records stat.id := by
    unfold itemsOf itemsOfSeller
    congr 1
    apply List.filter_congr
    intro r _
    rw [hid]
    exact decide_eq_decide.mpr (ownerOf_eq_iff sellers hids i s hs r.seller_id)
  have hsold := aggregate_products_sold_plain rev sellers products records agg hagg hplain i
    stat hi
  rw [hitems] at hsold
  have htop : (reportAt bon k sellers.length stat).top_products =
      (topEntries ((itemsOfSeller records stat.id).foldl tally [])).map plainEntry := by
    show topProducts stat.products_sold = _
    rw [hsold, topProducts_plainSold]
  have hidr : (reportAt bon k sellers.length stat).seller_id = stat.id := rfl
  rw [htop, hidr]
  generalize hitm : itemsOfSeller records stat.id = items
  obtain ⟨rest, hperm, hrest, hfull⟩ := topEntries_perm_take (items.foldl tally [])
  have hsku : ∀ l : List (String × ℚ),
      (l.map plainEntry).map (fun t : TopProduct => t.sku) = l.map Prod.fst := by
    intro l
    rw [List.map_map]
    rfl
  refine ⟨?_, ?_, ?_, ?_⟩
  · rw [hsku]
    have h1 : ((topEntries (items.foldl tally []) ++ rest).map Prod.fst).Nodup :=
      (hperm.map Prod.fst).nodup_iff.mpr (sold_keys_nodup items)
    rw [List.map_append] at h1
    exact h1.of_append_left
  · intro e he
    obtain ⟨kv, hkv, rfl⟩ := List.mem_map.mp he
    have h1 : (kv.1, kv.2) ∈ items.foldl tally [] :=
      hperm.mem_iff.mp (List.mem_append_left _ hkv)
    obtain ⟨h2, h3⟩ := sold_entry _ kv.1 kv.2 h1
    exact ⟨h2, congrArg SoldValue.number h3⟩
  · intro it hit hnot e he
    obtain ⟨kv, hkv, rfl⟩ := List.mem_map.mp he
    refine ⟨kv.2, rfl, ?_⟩
    have h1 : (it.sku, soldQuantity items it.sku) ∈ topEntries (items.foldl tally []) ++ rest :=
      hperm.mem_iff.mpr (sold_mem_of_item _ it hit)
    rcases List.mem_append.mp h1 with h2 | h2
    · rw [hsku] at hnot
      exact absurd (List.mem_map.mpr ⟨_, h2, rfl⟩) hnot
    · exact hrest _ h2 kv hkv
  · intro hcard it hit
    have hlen10 : (items.foldl tally []).length ≤ 10 := by
      rw [sold_length]; exact hcard
    have h1 : (it.sku, soldQuantity items it.sku) ∈ topEntries (items.foldl tally []) ++ rest :=
      hperm.mem_iff.mpr (sold_mem_of_item _ it hit)
    rw [hfull hlen10, List.append_nil] at h1
    rw [hsku]
    exact List.mem_map.mpr ⟨_, h1, rfl⟩

/-! ## Two more worked examples -/

/-- An ordinary unknown seller id makes the run fail with the lookup error. -/
theorem analyzeSalesData_stray :
    validateData (mkData soloSellers soloProducts strayRecords) =
      some (soloSellers, soloProducts, strayRecords) ∧
    PlainKeys soloSellers soloProducts strayRecords ∧
    analyzeSalesData (mkData soloSellers soloProducts strayRecords) defaultOptions =
      .error .unresolvedReference :=
  ⟨rfl, by decide,
    analyzeSalesData_unresolved_of_plain_keys _ calculateSimpleRevenue calculateBonusByProfit
      soloSellers soloProducts strayRecords rfl (by decide) (Or.inl (by decide))⟩

/-- The content of `top_products` on the two receipts of s1. -/
theorem top_products_content_pair :
    ∃ out, analyzeSalesData (mkData soloSellers pairProducts pairRecords)
        (mkOptions calculateSimpleRevenue calculateBonusByProfit) = .ok out ∧
      out.length = soloSellers.length ∧
      ∀ rep ∈ out,
        (rep.top_products.map (·.sku)).Nodup ∧
        (∀ e ∈ rep.top_products,
          (∃ it ∈ itemsOfSeller pairRecords rep.seller_id, it.sku = e.sku) ∧
          e.quantity = .number (soldQuantity (itemsOfSeller pairRecords rep.seller_id) e.sku)) ∧
        (∀ it ∈ itemsOfSeller pairRecords rep.seller_id,
          it.sku ∉ rep.top_products.map (·.sku) →
          ∀ e ∈ rep.top_products, ∃ q : ℚ, e.quantity = .number q ∧
            soldQuantity (itemsOfSeller pairRecords rep.seller_id) it.sku ≤ q) ∧
        ((((itemsOfSeller pairRecords rep.seller_id).map (·.sku)).toFinset).card ≤ 10 →
          ∀ it ∈ itemsOfSeller pairRecords rep.seller_id,
            it.sku ∈ rep.top_products.map (·.sku)) :=
  top_products_content_of_plain_skus calculateSimpleRevenue calculateBonusByProfit
    soloSellers pairProducts pairRecords (by decide) (by decide) (by decide)

end SalesBonus
